import Mathlib

/-!
# The GraphQL relay of `main.go`

A shallow embedding of `src/main.go`: the upstream client (`GitHubClient.Query`,
`NewGitHubClient`), the two relay handlers, the liveness probe, the CORS
middleware and the start-up sequence of `main`, followed by the properties the
specification states about them.

What lies outside `main.go` is kept apart from the program:

* `World` holds what the network and the Go runtime decide (whether the base
  URL parses, what `client.Do` returns, how `strconv` treats a number);
* the parts of `encoding/json` and `gin` the program calls are written out
  under the name of the library function they follow.

Bodies are JSON trees: the text level (white space, string escapes) is not
modelled, a body that is not JSON text is `Body.invalid`.
-/

namespace Relay

/-! ## JSON documents and the values `encoding/json` builds from them -/

/-- A JSON document as it stands in a body: object members keep their order and
may repeat a key, a number is its literal text. -/
inductive JSON where
  | null
  | bool (b : Bool)
  | num (lit : String)
  | str (s : String)
  | arr (items : List JSON)
  | obj (members : List (String × JSON))

/-- What `json.Unmarshal` stores in an `interface{}`: `nil`, `bool`, `float64`,
`string`, `[]interface{}` or `map[string]interface{}`. A `float64` is held as
the text `encoding/json` writes for it; a map as the assignments `m[k] = v`
that built it, in the order they ran. -/
inductive GoValue where
  | nil
  | bool (b : Bool)
  | float64 (text : String)
  | string (s : String)
  | slice (items : List GoValue)
  | map (assigned : List (String × GoValue))

/-- Byte-wise `a < b` on UTF-8 text, the order of `strings.Compare`: UTF-8 keeps
the order of code points, so the characters are compared by code point. -/
def charsLess : List Char → List Char → Bool
  | [], [] => false
  | [], _ :: _ => true
  | _ :: _, [] => false
  | a :: as, b :: bs =>
    if a.toNat < b.toNat then true
    else if b.toNat < a.toNat then false
    else charsLess as bs

/-- Key order of a marshalled Go map. -/
def keyLess (a b : String) : Bool := charsLess a.toList b.toList

/-- The assignment `m[k] = v` on a map held as its entries in key order: an
entry with the same key is replaced. -/
def assign {α : Type} (k : String) (v : α) : List (String × α) → List (String × α)
  | [] => [(k, v)]
  | (k', v') :: rest =>
    if k = k' then (k, v) :: rest
    else if keyLess k k' then (k, v) :: (k', v') :: rest
    else (k', v') :: assign k v rest

/-- The entries of the map a sequence of assignments builds, in the key order
in which `json.Marshal` writes a map. -/
def mapEntries {α : Type} (assigned : List (String × α)) : List (String × α) :=
  assigned.foldl (fun m kv => assign kv.1 kv.2 m) []

mutual
/-- The document `json.Marshal` writes for a value held in an `interface{}`. -/
def encodeValue : GoValue → JSON
  | .nil => .null
  | .bool b => .bool b
  | .float64 text => .num text
  | .string s => .str s
  | .slice items => .arr (encodeItems items)
  | .map assigned => .obj (mapEntries (encodeAssigned assigned))
/-- The elements of a slice, in order. -/
def encodeItems : List GoValue → List JSON
  | [] => []
  | v :: rest => encodeValue v :: encodeItems rest
/-- The values of a map, each under its key. -/
def encodeAssigned : List (String × GoValue) → List (String × JSON)
  | [] => []
  | (k, v) :: rest => (k, encodeValue v) :: encodeAssigned rest
end

/-- The text of an error the Go runtime or a library reports (`net/http`, `io`,
the JSON scanner): such a text is never empty. -/
structure ErrorText where
  text : String
  nonempty : text ≠ ""

/-- The errors `GitHubClient.Query` can return, by the call that reports them. -/
inductive GoError where
  /-- `json.Marshal` met a value it cannot write (`json.UnsupportedTypeError`). -/
  | unsupportedType (typeName : String)
  /-- `http.NewRequest` (op `parse`) or `client.Do` (op `Post`): a `*url.Error`. -/
  | url (op : String) (target : String) (cause : ErrorText)
  /-- `io.ReadAll` failed while reading the body. -/
  | read (cause : ErrorText)
  /-- The body is not JSON text (`json.SyntaxError`). -/
  | malformed (cause : ErrorText)
  /-- A JSON value does not fit the Go target (`json.UnmarshalTypeError`). The
  target is named in outline (the struct field and the kind of its type): how Go
  words the field path and the type differs between its versions, and nothing
  below reads that wording. -/
  | unmarshalType (value : String) (target : String)

/-- The method `Error()`. A `*url.Error` prints its URL quoted; the quoting
leaves a URL of plain characters as it is between the quotes. -/
def GoError.Error : GoError → String
  | .unsupportedType typeName => "json: unsupported type: " ++ typeName
  | .url op target cause => op ++ " \"" ++ target ++ "\": " ++ cause.text
  | .read cause => cause.text
  | .malformed cause => cause.text
  | .unmarshalType value target => "json: cannot unmarshal " ++ value ++ " into Go " ++ target

/-- An HTTP header: the values set so far, under their names. -/
abbrev Header := List (String × String)

/-- The method `Header.Set`: the value replaces the one the name has, or is added. -/
def Header.Set (name value : String) : Header → Header
  | [] => [(name, value)]
  | (n, v) :: rest => if n = name then (n, value) :: rest else (n, v) :: Header.Set name value rest

/-- The request `GitHubClient.Query` hands to `client.Do`. -/
structure HTTPRequest where
  method : String
  url : String
  header : Header
  body : JSON

/-- The bytes of a response body: JSON text, or text the JSON scanner rejects
with the given complaint. -/
inductive Body where
  | json (doc : JSON)
  | invalid (complaint : ErrorText)

/-- The response `client.Do` returns: its status code, and what `io.ReadAll`
gets from its body (the bytes, or a read error). -/
structure UpstreamReply where
  status : Nat
  read : Except ErrorText Body

/-- What lies outside the program. -/
structure World where
  /-- A number literal through `strconv.ParseFloat` and back through the
  encoder's `strconv.AppendFloat`: the text written for the `float64` the
  literal parses to, `none` when the literal is out of range. -/
  float64 : String → Option String
  /-- The complaint of `url.Parse` about a URL, `none` when it parses. -/
  parseURL : String → Option ErrorText
  /-- The call `client.Do`: the upstream reply, or the cause of a transport failure. -/
  roundTrip : HTTPRequest → Except ErrorText UpstreamReply

/-- How `json.UnmarshalTypeError` names the kind of a JSON value. -/
def JSON.kind : JSON → String
  | .null => "null"
  | .bool _ => "bool"
  | .num _ => "number"
  | .str _ => "string"
  | .arr _ => "array"
  | .obj _ => "object"

mutual
/-- The decoder of `json.Unmarshal` for a target of type `interface{}` (the
field `Data`). A number becomes a `float64`; one that `strconv.ParseFloat`
rejects as out of range is reported as an `UnmarshalTypeError`. -/
def decodeValue (w : World) : JSON → Except GoError GoValue
  | .null => .ok .nil
  | .bool b => .ok (.bool b)
  | .num lit =>
    match w.float64 lit with
    | some text => .ok (.float64 text)
    | none => .error (.unmarshalType ("number " ++ lit)
        "struct field GraphQLResponse.data of type float64")
  | .str s => .ok (.string s)
  | .arr items =>
    match decodeItems w items with
    | .ok vs => .ok (.slice vs)
    | .error e => .error e
  | .obj members =>
    match decodeMembers w members with
    | .ok kvs => .ok (.map kvs)
    | .error e => .error e
/-- The elements of an array, left to right; the first error is the one kept. -/
def decodeItems (w : World) : List JSON → Except GoError (List GoValue)
  | [] => .ok []
  | j :: rest =>
    match decodeValue w j with
    | .error e => .error e
    | .ok v =>
      match decodeItems w rest with
      | .ok vs => .ok (v :: vs)
      | .error e => .error e
/-- The members of an object, left to right, each an assignment `m[key] = value`. -/
def decodeMembers (w : World) : List (String × JSON) → Except GoError (List (String × GoValue))
  | [] => .ok []
  | (k, j) :: rest =>
    match decodeValue w j with
    | .error e => .error e
    | .ok v =>
      match decodeMembers w rest with
      | .ok kvs => .ok ((k, v) :: kvs)
      | .error e => .error e
end

/-! ## The types of `main.go` -/

/-- A value of the map `Variables` (an `interface{}`): either one that
`json.Marshal` can write, or one it rejects (a channel, a function), known by
the name of its type. -/
inductive Variable where
  | value (v : GoValue)
  | unsupported (typeName : String)

/-- The struct `GraphQLRequest` of `main.go`; `none` is the nil map. -/
structure GraphQLRequest where
  Query : String
  Variables : Option (List (String × Variable))

/-- An element of `GraphQLResponse.Errors`: `struct { Message string }`. -/
structure ErrorItem where
  Message : String

/-- The struct `GraphQLResponse` of `main.go`. -/
structure GraphQLResponse where
  Data : GoValue
  Errors : List ErrorItem

/-- The struct `GitHubClient` of `main.go`. -/
structure GitHubClient where
  token : String
  baseURL : String

/-- The constructor `NewGitHubClient` of `main.go`. -/
def NewGitHubClient (token : String) : GitHubClient :=
  { token := token, baseURL := "https://api.github.com/graphql" }

/-! ## `json.Unmarshal` into `GraphQLResponse` -/

/-- Case folding of one character of an object key, as `encoding/json` folds a
key to find a struct field: a letter of `a`..`z` to its capital, the long s
(U+017F) to `S`, the Kelvin sign (U+212A) to `K`. Other letters are left as
they are: no field name of this program holds one. -/
def foldRune (c : Char) : Char :=
  if 97 ≤ c.toNat ∧ c.toNat ≤ 122 then Char.ofNat (c.toNat - 32)
  else if c.toNat = 0x17F then 'S'
  else if c.toNat = 0x212A then 'K'
  else c

/-- A key with every character folded. -/
def foldName (key : String) : List Char := key.toList.map foldRune

/-- Whether an object key selects the struct field tagged `name`: the exact
name, or else a key equal to it up to case folding. -/
def selects (name key : String) : Bool :=
  key = name || foldName key = foldName name

/-- The members of one element of `errors` into `struct { Message string }`:
a string under `message` is stored, a `null` leaves the field as it is, any
other value is an `UnmarshalTypeError`; other keys are skipped. -/
def decodeErrorFields (cur : ErrorItem) : List (String × JSON) → Except GoError ErrorItem
  | [] => .ok cur
  | (k, j) :: rest =>
    if selects "message" k then
      match j with
      | .str s => decodeErrorFields { Message := s } rest
      | .null => decodeErrorFields cur rest
      | other => .error (.unmarshalType other.kind
          "struct field GraphQLResponse.errors.message of type string")
    else decodeErrorFields cur rest

/-- One element of `errors` into the element `cur` of the slice, in place: an
object stores its `message`, a `null` leaves the element as it is. -/
def decodeErrorItem (cur : ErrorItem) : JSON → Except GoError ErrorItem
  | .null => .ok cur
  | .obj members => decodeErrorFields cur members
  | other => .error (.unmarshalType other.kind
      "struct field GraphQLResponse.errors of type struct")

/-- The elements of `errors`, left to right. The decoder lengthens the slice
over its backing array and decodes each element in place: element `i` starts
from what the backing array holds at `i`, the zero value where nothing was
written before. -/
def decodeErrorItems : List ErrorItem → List JSON → Except GoError (List ErrorItem)
  | _, [] => .ok []
  | backing, j :: rest =>
    match decodeErrorItem (backing.headD { Message := "" }) j with
    | .error e => .error e
    | .ok item =>
      match decodeErrorItems backing.tail rest with
      | .ok items => .ok (item :: items)
      | .error e => .error e

/-- The value under `errors` into the slice `Errors`, whose backing array holds
`backing`: the new slice, and what its backing array holds afterwards. `null`
gives the nil slice and an empty array a fresh empty slice; any other array is
decoded over the backing array, which keeps what lies beyond the new length. -/
def decodeErrors (backing : List ErrorItem) :
    JSON → Except GoError (List ErrorItem × List ErrorItem)
  | .null => .ok ([], [])
  | .arr items =>
    match decodeErrorItems backing items with
    | .ok [] => .ok ([], [])
    | .ok (item :: more) =>
      .ok (item :: more, item :: more ++ backing.drop (item :: more).length)
    | .error e => .error e
  | other => .error (.unmarshalType other.kind
      "struct field GraphQLResponse.errors of type []struct")

/-- The members of the body into the struct, left to right: a key that selects
`data` or `errors` stores into that field, any other key is skipped. A later
`data` replaces the value of an earlier one; a later `errors` is decoded over
the backing array of the slice the earlier one left (`backing`). -/
def decodeFields (w : World) (cur : GraphQLResponse) (backing : List ErrorItem) :
    List (String × JSON) → Except GoError GraphQLResponse
  | [] => .ok cur
  | (k, j) :: rest =>
    if selects "data" k then
      match decodeValue w j with
      | .ok v => decodeFields w { cur with Data := v } backing rest
      | .error e => .error e
    else if selects "errors" k then
      match decodeErrors backing j with
      | .ok (items, kept) => decodeFields w { cur with Errors := items } kept rest
      | .error e => .error e
    else decodeFields w cur backing rest

/-- The call `json.Unmarshal(body, &gqlResp)` on a body that is JSON text,
`gqlResp` being the zero `GraphQLResponse`: `null` leaves the struct as it is,
an object fills its fields, anything else does not fit a struct. -/
def unmarshalResponse (w : World) : JSON → Except GoError GraphQLResponse
  | .null => .ok { Data := .nil, Errors := [] }
  | .obj members => decodeFields w { Data := .nil, Errors := [] } [] members
  | other => .error (.unmarshalType other.kind "value of type main.GraphQLResponse")

/-! ## `GitHubClient.Query` -/

/-- The entries of `Variables`, taken in key order, as `json.Marshal` writes
them; the first value it cannot write ends the call with an
`UnsupportedTypeError`. -/
def marshalVariables : List (String × Variable) → Except GoError (List (String × JSON))
  | [] => .ok []
  | (_, .unsupported typeName) :: _ => .error (.unsupportedType typeName)
  | (k, .value v) :: rest =>
    match marshalVariables rest with
    | .ok kvs => .ok ((k, encodeValue v) :: kvs)
    | .error e => .error e

/-- The call `json.Marshal(reqBody)` on a `GraphQLRequest`: the fields in the
order of the struct, under the names of their tags; a nil map is `null`, a map
is written in key order. -/
def marshalRequest (reqBody : GraphQLRequest) : Except GoError JSON :=
  match reqBody.Variables with
  | none => .ok (.obj [("query", .str reqBody.Query), ("variables", .null)])
  | some vars =>
    match marshalVariables (mapEntries vars) with
    | .ok kvs => .ok (.obj [("query", .str reqBody.Query), ("variables", .obj kvs)])
    | .error e => .error e

/-- The call `json.Unmarshal(body, &gqlResp)`: the scanner checks the whole
body first, then the decoder runs. -/
def unmarshalBody (w : World) : Body → Except GoError GraphQLResponse
  | .invalid complaint => .error (.malformed complaint)
  | .json doc => unmarshalResponse w doc

/-- One run of `GitHubClient.Query`: the requests it gave to `client.Do`, and
what it returned. -/
structure QueryRun where
  sent : List HTTPRequest
  result : Except GoError GraphQLResponse

/-- The method `Query` of `main.go`, step by step: marshal the request, build
the POST, set the two headers, send it, read the body, unmarshal it. The status
code of the reply is not looked at. -/
def GitHubClient.Query (w : World) (c : GitHubClient) (query : String)
    (vars : Option (List (String × Variable))) : QueryRun :=
  let reqBody : GraphQLRequest := { Query := query, Variables := vars }
  match marshalRequest reqBody with
  | .error err => { sent := [], result := .error err }
  | .ok jsonData =>
    match w.parseURL c.baseURL with
    | some cause => { sent := [], result := .error (.url "parse" c.baseURL cause) }
    | none =>
      let req : HTTPRequest :=
        { method := "POST", url := c.baseURL, header := [], body := jsonData }
      let req := { req with header := req.header.Set "Authorization" ("Bearer " ++ c.token) }
      let req := { req with header := req.header.Set "Content-Type" "application/json" }
      match w.roundTrip req with
      | .error cause => { sent := [req], result := .error (.url "Post" c.baseURL cause) }
      | .ok resp =>
        match resp.read with
        | .error cause => { sent := [req], result := .error (.read cause) }
        | .ok body => { sent := [req], result := unmarshalBody w body }

/-! ## The part of `gin` the program uses -/

/-- What a response carries as its body: nothing, a JSON document, the plain
text `404 page not found` of gin, or the note `net/http` writes for a redirect. -/
inductive Payload where
  | empty
  | json (doc : JSON)
  | notFoundText
  | redirectNote (location : String)

/-- The response writer of a `gin.Context`: the status code, the header, the
body written so far, and whether the header has gone out. -/
structure ResponseWriter where
  status : Nat
  header : Header
  body : Payload
  written : Bool

/-- An inbound request as the engine sees it: the method and `URL.Path`. The
requests `net/http` answers by itself (a malformed request, the asterisk form
of `OPTIONS`) never reach the engine and are not requests of this type. -/
structure Request where
  method : String
  path : String
  /-- The URL written in `Location` when the engine redirects this request to a
  path: `req.URL.String()` with that path, as `http.Redirect` cleans and
  escapes it. It escapes the path, keeps the query of the request and is
  absolute for an absolute-form target, so it is fixed by parts of the request
  the engine does not read otherwise; for an origin-form request without a
  query to a path of plain characters it is the path itself. -/
  redirectURL : String → String := fun target => target

/-- What the program did while it served a request. -/
inductive Event where
  /-- A route handler of `main.go` started, named by its pattern. -/
  | handler (pattern : String)
  /-- One call of `ghClient.Query`, with its arguments and its run. -/
  | query (text : String) (vars : Option (List (String × Variable))) (run : QueryRun)

/-- A request served so far: the events in order, and the response writer. -/
structure Served where
  trace : List Event
  writer : ResponseWriter

/-- The method `c.JSON(code, obj)` with a status that allows a body, on a
response not yet written: the status is set, `Content-Type` is set unless the
header has one, the document is written. -/
def ResponseWriter.JSON (code : Nat) (obj : JSON) (rw : ResponseWriter) : ResponseWriter :=
  { status := code
    header :=
      if rw.header.any (fun nv => nv.1 = "Content-Type") then rw.header
      else rw.header.Set "Content-Type" "application/json; charset=utf-8"
    body := .json obj
    written := true }

/-- The method `c.AbortWithStatus(code)` on a response not yet written: the
status is set and the header goes out with no body; the handlers that follow
in the chain do not run (the caller does not call them). -/
def ResponseWriter.AbortWithStatus (code : Nat) (rw : ResponseWriter) : ResponseWriter :=
  { rw with status := code, written := true }

/-- The map literal `gin.H` with one key, as `json.Marshal` writes it. -/
def ginH (key : String) (value : JSON) : JSON := .obj [(key, value)]

/-- The slice `resp.Errors` as `json.Marshal` writes it when it has an element:
one object per element, its field under the tag `message`. -/
def encodeErrors (errors : List ErrorItem) : JSON :=
  .arr (errors.map fun e => .obj [("message", .str e.Message)])

/-! ## The handlers and the middleware of `main` -/

/-- The query text of the handler of `/api/pinned/:username`, as `main.go` writes it. -/
def pinnedQuery : String :=
  String.join [
    "\n",
    "\t\t\tquery PinnedRepos($username: String!) \x7b\n",
    "\t\t\t\tuser(login: $username) \x7b\n",
    "\t\t\t\t\tpinnedItems(first: 6, types: [REPOSITORY]) \x7b\n",
    "\t\t\t\t\t\ttotalCount\n",
    "\t\t\t\t\t\tedges \x7b\n",
    "\t\t\t\t\t\t\tnode \x7b\n",
    "\t\t\t\t\t\t\t\t... on Repository \x7b\n",
    "\t\t\t\t\t\t\t\t\tname\n",
    "\t\t\t\t\t\t\t\t\tid\n",
    "\t\t\t\t\t\t\t\t\turl\n",
    "\t\t\t\t\t\t\t\t\tdescription\n",
    "\t\t\t\t\t\t\t\t\tstargazers \x7b\n",
    "\t\t\t\t\t\t\t\t\t\ttotalCount\n",
    "\t\t\t\t\t\t\t\t\t\x7d\n",
    "\t\t\t\t\t\t\t\t\tforkCount\n",
    "\t\t\t\t\t\t\t\t\tprimaryLanguage \x7b\n",
    "\t\t\t\t\t\t\t\t\t\tname\n",
    "\t\t\t\t\t\t\t\t\t\tcolor\n",
    "\t\t\t\t\t\t\t\t\t\x7d\n",
    "\t\t\t\t\t\t\t\t\x7d\n",
    "\t\t\t\t\t\t\t\x7d\n",
    "\t\t\t\t\t\t\x7d\n",
    "\t\t\t\t\t\x7d\n",
    "\t\t\t\t\x7d\n",
    "\t\t\t\x7d\n",
    "\t\t"]

/-- The query text of the handler of `/api/stats/:username`, as `main.go` writes it. -/
def statsQuery : String :=
  String.join [
    "\n",
    "\t\t\tquery UserStats($username: String!) \x7b\n",
    "\t\t\t\tuser(login: $username) \x7b\n",
    "\t\t\t\t\tname\n",
    "\t\t\t\t\tlogin\n",
    "\t\t\t\t\tbio\n",
    "\t\t\t\t\tavatarUrl\n",
    "\t\t\t\t\tcompany\n",
    "\t\t\t\t\tlocation\n",
    "\t\t\t\t\temail\n",
    "\t\t\t\t\twebsiteUrl\n",
    "\t\t\t\t\ttwitterUsername\n",
    "\t\t\t\t\tcreatedAt\n",
    "\t\t\t\t\tpronouns\n",
    "\t\t\t\t\tfollowers \x7b\n",
    "\t\t\t\t\t\ttotalCount\n",
    "\t\t\t\t\t\x7d\n",
    "\t\t\t\t\tfollowing \x7b\n",
    "\t\t\t\t\t\ttotalCount\n",
    "\t\t\t\t\t\x7d\n",
    "\t\t\t\t\trepositories(first: 100, ownerAffiliations: OWNER, privacy: null) \x7b\n",
    "\t\t\t\t\t\ttotalCount\n",
    "\t\t\t\t\t\tnodes \x7b\n",
    "\t\t\t\t\t\t\tname\n",
    "\t\t\t\t\t\t\tstargazers \x7b\n",
    "\t\t\t\t\t\t\t\ttotalCount\n",
    "\t\t\t\t\t\t\t\x7d\n",
    "\t\t\t\t\t\t\tforkCount\n",
    "\t\t\t\t\t\t\tisPrivate\n",
    "\t\t\t\t\t\t\tisFork\n",
    "\t\t\t\t\t\t\tlanguages(first: 10, orderBy: \x7bfield: SIZE, direction: DESC\x7d) \x7b\n",
    "\t\t\t\t\t\t\t\tedges \x7b\n",
    "\t\t\t\t\t\t\t\t\tsize\n",
    "\t\t\t\t\t\t\t\t\tnode \x7b\n",
    "\t\t\t\t\t\t\t\t\t\tname\n",
    "\t\t\t\t\t\t\t\t\t\tcolor\n",
    "\t\t\t\t\t\t\t\t\t\x7d\n",
    "\t\t\t\t\t\t\t\t\x7d\n",
    "\t\t\t\t\t\t\t\ttotalSize\n",
    "\t\t\t\t\t\t\t\x7d\n",
    "\t\t\t\t\t\t\x7d\n",
    "\t\t\t\t\t\x7d\n",
    "\t\t\t\t\trepositoriesContributedTo(first: 100, contributionTypes: [COMMIT, ISSUE, PULL_REQUEST, REPOSITORY]) \x7b\n",
    "\t\t\t\t\t\ttotalCount\n",
    "\t\t\t\t\t\tnodes \x7b\n",
    "\t\t\t\t\t\t\tname\n",
    "\t\t\t\t\t\t\towner \x7b\n",
    "\t\t\t\t\t\t\t\tlogin\n",
    "\t\t\t\t\t\t\t\x7d\n",
    "\t\t\t\t\t\t\tisPrivate\n",
    "\t\t\t\t\t\t\x7d\n",
    "\t\t\t\t\t\x7d\n",
    "\t\t\t\t\tstarredRepositories \x7b\n",
    "\t\t\t\t\t\ttotalCount\n",
    "\t\t\t\t\t\x7d\n",
    "\t\t\t\t\tcontributionsCollection \x7b\n",
    "\t\t\t\t\t\ttotalCommitContributions\n",
    "\t\t\t\t\t\ttotalPullRequestContributions\n",
    "\t\t\t\t\t\ttotalIssueContributions\n",
    "\t\t\t\t\t\ttotalRepositoryContributions\n",
    "\t\t\t\t\t\ttotalPullRequestReviewContributions\n",
    "\t\t\t\t\t\trestrictedContributionsCount\n",
    "\t\t\t\t\t\tcontributionYears\n",
    "\t\t\t\t\t\x7d\n",
    "\t\t\t\t\tpullRequests \x7b\n",
    "\t\t\t\t\t\ttotalCount\n",
    "\t\t\t\t\t\x7d\n",
    "\t\t\t\t\tissues \x7b\n",
    "\t\t\t\t\t\ttotalCount\n",
    "\t\t\t\t\t\x7d\n",
    "\t\t\t\t\x7d\n",
    "\t\t\t\x7d\n",
    "\t\t"]

/-- The header value of `Access-Control-Allow-Headers` in `main.go`. -/
def allowHeaders : String :=
  "Content-Type, Content-Length, Accept-Encoding, X-CSRF-Token, Authorization, accept, origin, Cache-Control, X-Requested-With"

/-- The CORS middleware of `main.go`: four headers are set, then an `OPTIONS`
request is aborted with 204 and any other goes on to `next` (`c.Next()`). -/
def corsMiddleware (req : Request) (next : ResponseWriter → Served) (rw : ResponseWriter) :
    Served :=
  let rw := { rw with header := rw.header.Set "Access-Control-Allow-Origin" "*" }
  let rw := { rw with header := rw.header.Set "Access-Control-Allow-Credentials" "true" }
  let rw := { rw with header := rw.header.Set "Access-Control-Allow-Headers" allowHeaders }
  let rw := { rw with header := rw.header.Set "Access-Control-Allow-Methods" "POST, OPTIONS, GET, PUT" }
  if req.method = "OPTIONS" then
    { trace := [], writer := rw.AbortWithStatus 204 }
  else
    next rw

/-- The handler of `GET /api/pinned/:username` in `main.go`; `username` is
`c.Param("username")`. -/
def pinnedHandler (w : World) (ghClient : GitHubClient) (username : String)
    (rw : ResponseWriter) : Served :=
  let query := pinnedQuery
  let vars : Option (List (String × Variable)) := some [("username", .value (.string username))]
  let run := ghClient.Query w query vars
  let trace := [Event.handler "/api/pinned/:username", Event.query query vars run]
  match run.result with
  | .error err => { trace := trace, writer := rw.JSON 500 (ginH "error" (.str err.Error)) }
  | .ok resp =>
    if resp.Errors.length > 0 then
      { trace := trace, writer := rw.JSON 400 (ginH "errors" (encodeErrors resp.Errors)) }
    else
      { trace := trace, writer := rw.JSON 200 (encodeValue resp.Data) }

/-- The handler of `GET /api/stats/:username` in `main.go`; `username` is
`c.Param("username")`. -/
def statsHandler (w : World) (ghClient : GitHubClient) (username : String)
    (rw : ResponseWriter) : Served :=
  let query := statsQuery
  let vars : Option (List (String × Variable)) := some [("username", .value (.string username))]
  let run := ghClient.Query w query vars
  let trace := [Event.handler "/api/stats/:username", Event.query query vars run]
  match run.result with
  | .error err => { trace := trace, writer := rw.JSON 500 (ginH "error" (.str err.Error)) }
  | .ok resp =>
    if resp.Errors.length > 0 then
      { trace := trace, writer := rw.JSON 400 (ginH "errors" (encodeErrors resp.Errors)) }
    else
      { trace := trace, writer := rw.JSON 200 (encodeValue resp.Data) }

/-- The handler of `GET /` in `main.go`. -/
def healthHandler (rw : ResponseWriter) : Served :=
  { trace := [Event.handler "/"], writer := rw.JSON 200 (ginH "status" (.str "ok")) }

/-! ## The engine: routes, dispatch, start-up -/

/-- The routes `main` registers, each with the parameter its pattern binds. -/
inductive Route where
  | pinned (username : String)
  | stats (username : String)
  | health

/-- The answer of the route tree for a path: the handlers of a route, the advice
to redirect to the path with its trailing slash changed (`tsr`), or nothing. -/
inductive Lookup where
  | handlers (route : Route)
  | tsr
  | miss

/-- The rest of a path after a static part of the tree, when it starts with it. -/
def dropStatic : List Char → List Char → Option (List Char)
  | [], rest => some rest
  | _ :: _, [] => none
  | p :: ps, c :: cs => if p = c then dropStatic ps cs else none

/-- The node `:username` of the tree on what follows its static part: the
parameter runs to the next slash or to the end of the path, and must end the
path; a single slash after it is the trailing-slash case. Nothing after the
static part is no match. -/
def lookupParam (route : String → Route) (rest : List Char) : Lookup :=
  match rest with
  | [] => .miss
  | _ :: _ =>
    match rest.dropWhile (fun ch => ch != '/') with
    | [] => .handlers (route (String.mk (rest.takeWhile (fun ch => ch != '/'))))
    | [_] => .tsr
    | _ :: _ :: _ => .miss

/-- The lookup `getValue` of gin in the `GET` tree of the three routes of
`main`. The tree is the root `/` (the probe handler) over the static node
`api/`, over the static nodes `pinned/` and `stats/`, each over its parameter
node `:username` (a handler). Only the root and the parameter nodes hold a
handler, so they are the only places of a trailing-slash advice:

* `/` is the root itself; the empty path is the root less its slash, and `//`
  leaves a single slash at the root, which has no child for it: both are advised
  to the root;
* under `/api/pinned/` and `/api/stats/` the parameter node decides;
* every other path ends at a node without a handler and is no match. -/
def getValue (path : String) : Lookup :=
  if path = "/" then .handlers .health
  else if path = "" then .tsr
  else if path = "//" then .tsr
  else
    match dropStatic "/api/pinned/".toList path.toList with
    | some rest => lookupParam .pinned rest
    | none =>
      match dropStatic "/api/stats/".toList path.toList with
      | some rest => lookupParam .stats rest
      | none => .miss

/-- The response writer at the start of a request: status 200, nothing set. -/
def freshWriter : ResponseWriter :=
  { status := 200, header := [], body := .empty, written := false }

/-- The function `serveError` of gin for a request no route takes: the status is
preset, the chain of global middleware runs, and unless the chain wrote the
response the plain 404 text is written. -/
def serveError (code : Nat) (chain : ResponseWriter → Served) : Served :=
  let served := chain { freshWriter with status := code }
  if served.writer.written then served
  else if served.writer.status = code then
    { served with
      writer :=
        { served.writer with
          header := served.writer.header.Set "Content-Type" "text/plain"
          body := .notFoundText
          written := true } }
  else { served with writer := { served.writer with written := true } }

/-- The function `redirectTrailingSlash` of gin (for a request without an
`X-Forwarded-Prefix` header), with the `http.Redirect` it ends in: the path
loses its trailing slash or gains one, the request URL with that path goes
into `Location`, and the engine answers by itself: no handler of the chain
runs. -/
def redirectTrailingSlash (req : Request) : Served :=
  let p := req.path.toList
  let target :=
    if p.length > 1 ∧ p.getLast? = some '/' then String.mk p.dropLast else req.path ++ "/"
  let code := if req.method = "GET" then 301 else 307
  { trace := []
    writer :=
      { status := code
        header :=
          [("Location", req.redirectURL target), ("Content-Type", "text/html; charset=utf-8")]
        body := .redirectNote (req.redirectURL target)
        written := true } }

/-- The handler a route was registered with. -/
def routeHandler (w : World) (ghClient : GitHubClient) : Route → ResponseWriter → Served
  | .pinned username => pinnedHandler w ghClient username
  | .stats username => statsHandler w ghClient username
  | .health => healthHandler

/-- The engine `main` builds, serving one request (`handleHTTPRequest` of gin
with the defaults of `gin.Default()`): only `GET` has a route tree; a route
found runs the middleware and then its handler; a trailing-slash advice is
answered with a redirect; everything else runs the middleware and is a 404. The
logger and the recovery of `gin.Default()` write no part of a response here. -/
def ServeHTTP (w : World) (ghClient : GitHubClient) (req : Request) : Served :=
  let noRoute := serveError 404 (corsMiddleware req fun rw => { trace := [], writer := rw })
  if req.method = "GET" then
    match getValue req.path with
    | .handlers route =>
      let served := corsMiddleware req (routeHandler w ghClient route) freshWriter
      { served with writer := { served.writer with written := true } }
    | .tsr => if req.path ≠ "/" then redirectTrailingSlash req else noRoute
    | .miss => noRoute
  else noRoute

/-- What `main` does to the outside, in order. -/
inductive Effect where
  | stdout (text : String)
  | exit (code : Nat)
  /-- The router is created (`gin.Default()`). -/
  | newRouter
  /-- A middleware is installed (`r.Use`). -/
  | use
  /-- A route is registered (`r.GET`). -/
  | handle (method : String) (pattern : String)
  /-- The server binds the address and serves (`r.Run`). -/
  | run (addr : String)
deriving DecidableEq

/-- The call `os.Getenv`: the value of a variable, empty when it is unset. -/
def Getenv (env : String → Option String) (key : String) : String :=
  (env key).getD ""

/-- The function `main` of `main.go`. `loadFailed` tells whether
`godotenv.Load()` returned an error, `env` is the environment after that call. -/
def main (loadFailed : Bool) (env : String → Option String) : List Effect :=
  let loading := if loadFailed then [Effect.stdout "Error loading .env file\n"] else []
  let token := Getenv env "GITHUB_TOKEN"
  if token = "" then
    loading ++ [.stdout "GITHUB_TOKEN environment variable is required\n", .exit 1]
  else
    let port := Getenv env "PORT"
    let port := if port = "" then "8080" else port
    loading ++
      [.newRouter, .use,
       .handle "GET" "/api/pinned/:username",
       .handle "GET" "/api/stats/:username",
       .handle "GET" "/",
       .stdout ("Server starting on port " ++ port ++ "...\n"),
       .run (":" ++ port)]

/-! ## Definitions the statements use -/

/-- The four headers the middleware sets, in the order it sets them. -/
def corsHeader : Header :=
  [("Access-Control-Allow-Origin", "*"),
   ("Access-Control-Allow-Credentials", "true"),
   ("Access-Control-Allow-Headers", allowHeaders),
   ("Access-Control-Allow-Methods", "POST, OPTIONS, GET, PUT")]

/-- The response writer a route handler is given: status 200 and the four
headers of the middleware. -/
def afterCors : ResponseWriter :=
  { status := 200, header := corsHeader, body := .empty, written := false }

/-- The request the specification describes for the upstream call: a POST to
the base URL of the client with the bearer token, carrying the given body. -/
def upstreamRequest (c : GitHubClient) (body : JSON) : HTTPRequest :=
  { method := "POST"
    url := c.baseURL
    header := [("Authorization", "Bearer " ++ c.token), ("Content-Type", "application/json")]
    body := body }

/-- The variables both handlers pass: the one key `username`. -/
def usernameOnly (username : String) : Option (List (String × Variable)) :=
  some [("username", .value (.string username))]

/-- Whether the keys of the members strictly ascend in the key order of a Go
map (so no key repeats). -/
def ascendingKeys {α : Type} : List (String × α) → Bool
  | [] => true
  | [_] => true
  | (k, _) :: (k', v') :: rest => keyLess k k' && ascendingKeys ((k', v') :: rest)

mutual
/-- Whether a document passes through an `interface{}` unchanged: the keys of
every object in it strictly ascend, and every number in it is written back as
the literal it was read from. -/
def stable (w : World) : JSON → Bool
  | .null => true
  | .bool _ => true
  | .num lit => w.float64 lit == some lit
  | .str _ => true
  | .arr items => stableItems w items
  | .obj members => ascendingKeys members && stableMembers w members
/-- Every element of an array is stable. -/
def stableItems (w : World) : List JSON → Bool
  | [] => true
  | j :: rest => stable w j && stableItems w rest
/-- Every value of an object is stable. -/
def stableMembers (w : World) : List (String × JSON) → Bool
  | [] => true
  | (_, j) :: rest => stable w j && stableMembers w rest
end

/-- The message an upstream error element carries under `message`, starting
from `cur`: the string of the last member whose key is `message` and whose value
is not `null`. -/
def lastMessage (cur : String) : List (String × JSON) → String
  | [] => cur
  | (k, j) :: rest =>
    if selects "message" k then
      match j with
      | .str s => lastMessage s rest
      | _ => lastMessage cur rest
    else lastMessage cur rest

/-- The message text of one upstream error, read off the upstream document: the
string under its `message`, the empty text when it has none. -/
def messageText : JSON → String
  | .obj members => lastMessage "" members
  | _ => ""

mutual
/-- The document a value of `data` becomes on its way through Go, written on
documents alone: in every object the members stand in the key order of a Go
map, with the last member of a key that repeats; every number is the text
`float64` writes for it; nesting, the order of array elements, strings,
booleans and `null` stay. `none` when a number is out of range. -/
def rewritten (w : World) : JSON → Option JSON
  | .null => some .null
  | .bool b => some (.bool b)
  | .num lit =>
    match w.float64 lit with
    | some text => some (.num text)
    | none => none
  | .str s => some (.str s)
  | .arr items =>
    match rewrittenItems w items with
    | some items' => some (.arr items')
    | none => none
  | .obj members =>
    match rewrittenMembers w members with
    | some members' => some (.obj (mapEntries members'))
    | none => none
/-- The elements of an array, each rewritten, in order. -/
def rewrittenItems (w : World) : List JSON → Option (List JSON)
  | [] => some []
  | j :: rest =>
    match rewritten w j with
    | none => none
    | some j' =>
      match rewrittenItems w rest with
      | some rest' => some (j' :: rest')
      | none => none
/-- The members of an object, each value rewritten, in the order of the document. -/
def rewrittenMembers (w : World) : List (String × JSON) → Option (List (String × JSON))
  | [] => some []
  | (k, j) :: rest =>
    match rewritten w j with
    | none => none
    | some j' =>
      match rewrittenMembers w rest with
      | some rest' => some ((k, j') :: rest')
      | none => none
end

/-- The number conversion on the literals the examples hold. A short decimal
integer is held exactly by a `float64` and written back digit for digit.
`9007199254740993` is 2^53 + 1, which no `float64` holds: it rounds to 2^53 and
is written back as `9007199254740992`. `1e999` lies beyond the largest `float64`
(about 1.8e308) and is rejected as out of range. -/
def exampleFloat64 (lit : String) : Option String :=
  if lit = "1e999" then none
  else if lit = "9007199254740993" then some "9007199254740992"
  else some lit

/-- A world for the examples: the base URL parses and every request is answered
with the given status and body. -/
def answering (status : Nat) (body : Body) : World :=
  { float64 := exampleFloat64
    parseURL := fun _ => none
    roundTrip := fun _ => .ok { status := status, read := .ok body } }

/-- A world for the examples in which the connection to upstream is refused. -/
def refusing : World :=
  { float64 := exampleFloat64
    parseURL := fun _ => none
    roundTrip := fun _ =>
      .error ⟨"dial tcp 140.82.112.6:443: connect: connection refused", by decide⟩ }

/-- The reply of upstream to a query that failed: `data` together with three
errors, each with members besides its `message`. -/
def failedQueryBody : JSON :=
  .obj
    [("data", .obj [("user", .null)]),
     ("errors",
      .arr
        [.obj
          [("type", .str "NOT_FOUND"),
           ("path", .arr [.str "user"]),
           ("locations", .arr [.obj [("line", .num "3"), ("column", .num "5")]]),
           ("message", .str "Could not resolve to a User with the login of nobody.")],
         .obj
          [("message", .str "Something went wrong while executing your query."),
           ("extensions", .obj [("code", .str "INTERNAL")])],
         .obj
          [("type", .str "RATE_LIMITED"),
           ("message", .str "API rate limit exceeded for this token.")]])]

/-- A `data` value whose object lists `name` before `login`. -/
def profileData : JSON :=
  .obj [("user", .obj [("name", .str "The Octocat"), ("login", .str "octocat")])]

/-- A `data` value whose object repeats the key `id`. -/
def repeatedKeyData : JSON :=
  .obj [("id", .num "1"), ("id", .num "2")]

/-- The `data` of a reply to the pinned query, members in the order of the
query text: `totalCount` before `edges`, `name` before `id`. -/
def pinnedReplyData : JSON :=
  .obj
    [("user",
      .obj
        [("pinnedItems",
          .obj
            [("totalCount", .num "1"),
             ("edges",
              .arr
                [.obj
                  [("node",
                    .obj
                      [("name", .str "Hello-World"),
                       ("id", .str "MDEwOlJlcG9zaXRvcnkxMjk2MjY5"),
                       ("url", .str "https://github.com/octocat/Hello-World"),
                       ("description", .null),
                       ("stargazers", .obj [("totalCount", .num "2500")]),
                       ("forkCount", .num "1300"),
                       ("primaryLanguage", .null)])]])])])]

/-- The body upstream sends with status 401 for a bad token. -/
def badCredentialsBody : JSON :=
  .obj
    [("message", .str "Bad credentials"),
     ("documentation_url", .str "https://docs.github.com/graphql")]

/-! ## Lemmas: texts, `Query`, the handlers -/

theorem append_ne_empty (a b : String) (h : a ≠ "") : a ++ b ≠ "" := by
  intro hab
  apply h
  have hd := congrArg String.data hab
  simp only [String.data_append] at hd
  exact String.ext (List.append_eq_nil.mp hd).1

theorem append_ne_empty_right (a b : String) (h : b ≠ "") : a ++ b ≠ "" := by
  intro hab
  apply h
  have hd := congrArg String.data hab
  simp only [String.data_append] at hd
  exact String.ext (List.append_eq_nil.mp hd).2

/-- Every error `Query` can return prints a text that is not empty. -/
theorem error_text_nonempty (e : GoError) : e.Error ≠ "" := by
  cases e with
  | unsupportedType t => exact append_ne_empty _ _ (by decide)
  | url op target cause => exact append_ne_empty_right _ _ cause.nonempty
  | read cause => exact cause.nonempty
  | malformed cause => exact cause.nonempty
  | unmarshalType v t =>
    exact append_ne_empty _ _ (append_ne_empty _ _ (append_ne_empty _ _ (by decide)))

/-- The steps of `Query` as one expression: what was sent, and the result. -/
theorem query_unfold (w : World) (c : GitHubClient) (q : String)
    (vars : Option (List (String × Variable))) :
    c.Query w q vars =
      match marshalRequest { Query := q, Variables := vars } with
      | .error err => { sent := [], result := .error err }
      | .ok body =>
        match w.parseURL c.baseURL with
        | some cause => { sent := [], result := .error (.url "parse" c.baseURL cause) }
        | none =>
          { sent := [upstreamRequest c body]
            result :=
              match w.roundTrip (upstreamRequest c body) with
              | .error cause => .error (.url "Post" c.baseURL cause)
              | .ok resp =>
                match resp.read with
                | .error cause => .error (.read cause)
                | .ok bytes => unmarshalBody w bytes } := by
  have hne : ("Authorization" = "Content-Type") = False := by decide
  simp only [GitHubClient.Query, Header.Set, hne, if_false, upstreamRequest]
  cases marshalRequest { Query := q, Variables := vars } with
  | error e => rfl
  | ok body =>
    cases w.parseURL c.baseURL with
    | some cause => rfl
    | none =>
      simp only
      cases w.roundTrip
        { method := "POST", url := c.baseURL,
          header := [("Authorization", "Bearer " ++ c.token), ("Content-Type", "application/json")],
          body := body } with
      | error cause => rfl
      | ok resp =>
        simp only
        cases resp.read <;> rfl

/-- The body both handlers send: the query text and the one variable. -/
theorem marshal_username (q u : String) :
    marshalRequest { Query := q, Variables := usernameOnly u } =
      .ok (.obj [("query", .str q), ("variables", .obj [("username", .str u)])]) := by
  simp [marshalRequest, usernameOnly, mapEntries, assign, marshalVariables, encodeValue]

/-- What `marshalRequest` writes, when it writes: the two fields in order. -/
theorem marshal_shape (q : String) (vars : Option (List (String × Variable))) (body : JSON)
    (h : marshalRequest { Query := q, Variables := vars } = .ok body) :
    ∃ v, body = .obj [("query", .str q), ("variables", v)] ∧
      ((vars = none ∧ v = .null) ∨
        ∃ kvs es, vars = some kvs ∧ marshalVariables (mapEntries kvs) = .ok es ∧ v = .obj es) := by
  unfold marshalRequest at h
  cases vars with
  | none => simp at h; exact ⟨.null, h.symm, Or.inl ⟨rfl, rfl⟩⟩
  | some kvs =>
    simp only at h
    cases hv : marshalVariables (mapEntries kvs) with
    | error e => simp [hv] at h
    | ok es => simp [hv] at h; exact ⟨.obj es, h.symm, Or.inr ⟨kvs, es, rfl, hv, rfl⟩⟩

/-- The middleware on a response without headers. -/
theorem cors_on_empty (req : Request) (next : ResponseWriter → Served) (status : Nat)
    (body : Payload) (written : Bool) :
    corsMiddleware req next { status := status, header := [], body := body, written := written } =
      if req.method = "OPTIONS" then
        { trace := []
          writer := { status := 204, header := corsHeader, body := body, written := true } }
      else next { status := status, header := corsHeader, body := body, written := written } := by
  simp [corsMiddleware, Header.Set, corsHeader, ResponseWriter.AbortWithStatus]

/-- A `GET` request the tree finds a route for runs that route's handler
behind the middleware. -/
theorem serve_route (w : World) (c : GitHubClient) (req : Request) (route : Route)
    (hm : req.method = "GET") (hr : getValue req.path = .handlers route) :
    ServeHTTP w c req =
      { trace := (routeHandler w c route afterCors).trace
        writer := { (routeHandler w c route afterCors).writer with written := true } } := by
  have hopt : ¬ req.method = "OPTIONS" := by rw [hm]; decide
  simp [ServeHTTP, hm, hr, freshWriter, cors_on_empty, afterCors]

/-- The method `JSON` on the writer a handler is given. -/
theorem json_after_cors (code : Nat) (obj : JSON) :
    afterCors.JSON code obj =
      { status := code
        header := corsHeader ++ [("Content-Type", "application/json; charset=utf-8")]
        body := .json obj
        written := true } := by
  simp [ResponseWriter.JSON, afterCors, corsHeader, Header.Set]

/-- The relay handler of `/api/pinned/:username` by the result of its one call. -/
theorem pinned_unfold (w : World) (c : GitHubClient) (u : String) (rw : ResponseWriter) :
    pinnedHandler w c u rw =
      { trace := [.handler "/api/pinned/:username",
                  .query pinnedQuery (usernameOnly u) (c.Query w pinnedQuery (usernameOnly u))]
        writer :=
          match (c.Query w pinnedQuery (usernameOnly u)).result with
          | .error err => rw.JSON 500 (.obj [("error", .str err.Error)])
          | .ok resp =>
            if resp.Errors.length > 0 then
              rw.JSON 400
                (.obj [("errors", .arr (resp.Errors.map fun e => .obj [("message", .str e.Message)]))])
            else rw.JSON 200 (encodeValue resp.Data) } := by
  simp only [pinnedHandler, usernameOnly, ginH, encodeErrors]
  cases (c.Query w pinnedQuery (some [("username", .value (.string u))])).result with
  | error e => rfl
  | ok resp =>
    simp only
    split <;> rfl

/-- The relay handler of `/api/stats/:username` by the result of its one call. -/
theorem stats_unfold (w : World) (c : GitHubClient) (u : String) (rw : ResponseWriter) :
    statsHandler w c u rw =
      { trace := [.handler "/api/stats/:username",
                  .query statsQuery (usernameOnly u) (c.Query w statsQuery (usernameOnly u))]
        writer :=
          match (c.Query w statsQuery (usernameOnly u)).result with
          | .error err => rw.JSON 500 (.obj [("error", .str err.Error)])
          | .ok resp =>
            if resp.Errors.length > 0 then
              rw.JSON 400
                (.obj [("errors", .arr (resp.Errors.map fun e => .obj [("message", .str e.Message)]))])
            else rw.JSON 200 (encodeValue resp.Data) } := by
  simp only [statsHandler, usernameOnly, ginH, encodeErrors]
  cases (c.Query w statsQuery (some [("username", .value (.string u))])).result with
  | error e => rfl
  | ok resp =>
    simp only
    split <;> rfl

/-- The ways `Query` returns an error, one per step that can fail. -/
theorem query_error_causes (w : World) (c : GitHubClient) (q : String)
    (vars : Option (List (String × Variable))) (err : GoError)
    (h : (c.Query w q vars).result = .error err) :
    marshalRequest { Query := q, Variables := vars } = .error err ∨
    (∃ cause, w.parseURL c.baseURL = some cause ∧ err = .url "parse" c.baseURL cause) ∨
    (∃ body cause, w.roundTrip (upstreamRequest c body) = .error cause ∧
      err = .url "Post" c.baseURL cause) ∨
    (∃ body reply cause, w.roundTrip (upstreamRequest c body) = .ok reply ∧
      reply.read = .error cause ∧ err = .read cause) ∨
    (∃ body reply bytes, w.roundTrip (upstreamRequest c body) = .ok reply ∧
      reply.read = .ok bytes ∧ unmarshalBody w bytes = .error err) := by
  rw [query_unfold] at h
  cases hm : marshalRequest { Query := q, Variables := vars } with
  | error e => simp [hm] at h; left; rw [h]
  | ok body =>
    right
    cases hp : w.parseURL c.baseURL with
    | some cause => simp [hm, hp] at h; left; exact ⟨cause, rfl, h.symm⟩
    | none =>
      right
      simp only [hm, hp] at h
      cases hr : w.roundTrip (upstreamRequest c body) with
      | error cause => simp [hr] at h; left; exact ⟨body, cause, hr, h.symm⟩
      | ok reply =>
        right
        simp only [hr] at h
        cases hb : reply.read with
        | error cause => simp [hb] at h; left; exact ⟨body, reply, cause, hr, hb, h.symm⟩
        | ok bytes => simp [hb] at h; right; exact ⟨body, reply, bytes, hr, hb, h⟩

/-! ## Lemmas: the route tree -/

theorem dropStatic_append (p rest : List Char) : dropStatic p (p ++ rest) = some rest := by
  induction p with
  | nil => cases rest <;> rfl
  | cons a p ih => simp [dropStatic, ih]

theorem dropWhile_no_slash (l : List Char) (h : '/' ∉ l) :
    l.dropWhile (fun ch => ch != '/') = [] := by
  induction l with
  | nil => rfl
  | cons a l ih =>
    have ha : a ≠ '/' := fun e => h (by simp [e])
    have hl : '/' ∉ l := fun e => h (by simp [e])
    have hb : (a != '/') = true := by simp [ha]
    simp [List.dropWhile, hb, ih hl]

theorem takeWhile_no_slash (l : List Char) (h : '/' ∉ l) :
    l.takeWhile (fun ch => ch != '/') = l := by
  induction l with
  | nil => rfl
  | cons a l ih =>
    have ha : a ≠ '/' := fun e => h (by simp [e])
    have hl : '/' ∉ l := fun e => h (by simp [e])
    have hb : (a != '/') = true := by simp [ha]
    simp [List.takeWhile, hb, ih hl]

/-- A segment that is not empty and holds no slash is bound whole to the parameter. -/
theorem lookupParam_segment (route : String → Route) (u : String) (hne : u ≠ "")
    (hs : '/' ∉ u.toList) : lookupParam route u.toList = .handlers (route u) := by
  unfold lookupParam
  cases hu : u.toList with
  | nil => exact absurd (String.ext hu) hne
  | cons a l =>
    rw [hu] at hs
    simp only [dropWhile_no_slash _ hs, takeWhile_no_slash _ hs]
    rw [← hu]
    rfl

theorem static_ne (p u s : String) (h : s.length < p.length) : p ++ u ≠ s := by
  intro e
  have := congrArg String.length e
  simp only [String.length_append] at this
  omega

theorem getValue_pinned (u : String) (hne : u ≠ "") (hs : '/' ∉ u.toList) :
    getValue ("/api/pinned/" ++ u) = .handlers (.pinned u) := by
  have h1 : "/api/pinned/" ++ u ≠ "/" := static_ne _ _ _ (by decide)
  have h2 : "/api/pinned/" ++ u ≠ "" := static_ne _ _ _ (by decide)
  have h2' : "/api/pinned/" ++ u ≠ "//" := static_ne _ _ _ (by decide)
  have h3 : ("/api/pinned/" ++ u).toList = "/api/pinned/".toList ++ u.toList := by
    simp [String.toList]
  simp only [getValue, h1, h2, h2', if_false, h3, dropStatic_append,
    lookupParam_segment _ u hne hs]

theorem getValue_stats (u : String) (hne : u ≠ "") (hs : '/' ∉ u.toList) :
    getValue ("/api/stats/" ++ u) = .handlers (.stats u) := by
  have h1 : "/api/stats/" ++ u ≠ "/" := static_ne _ _ _ (by decide)
  have h2 : "/api/stats/" ++ u ≠ "" := static_ne _ _ _ (by decide)
  have h3 : ("/api/stats/" ++ u).toList = "/api/stats/".toList ++ u.toList := by
    simp [String.toList]
  have h2' : "/api/stats/" ++ u ≠ "//" := static_ne _ _ _ (by decide)
  have h4 : dropStatic "/api/pinned/".toList ("/api/stats/".toList ++ u.toList) = none := by
    simp [dropStatic, String.toList]
  simp only [getValue, h1, h2, h2', if_false, h3, h4, dropStatic_append,
    lookupParam_segment _ u hne hs]

/-- `Query` gives at most one request to `client.Do`. -/
theorem query_sent_le_one (w : World) (c : GitHubClient) (q : String)
    (vars : Option (List (String × Variable))) : (c.Query w q vars).sent.length ≤ 1 := by
  rw [query_unfold]
  cases marshalRequest { Query := q, Variables := vars } with
  | error e => simp
  | ok body => cases w.parseURL c.baseURL <;> simp

/-! ## Lemmas: maps in key order -/

/-- Assigning commutes with a change of the values. -/
theorem assign_map {α β : Type} (f : α → β) (k : String) (v : α) (m : List (String × α)) :
    assign k (f v) (m.map fun kv => (kv.1, f kv.2)) =
      (assign k v m).map fun kv => (kv.1, f kv.2) := by
  induction m with
  | nil => rfl
  | cons e m ih =>
    obtain ⟨k', v'⟩ := e
    simp only [List.map_cons, assign]
    split
    · rfl
    · split
      · rfl
      · simp [ih]

theorem foldl_assign_map {α β : Type} (f : α → β) (kvs acc : List (String × α)) :
    (kvs.map fun kv => (kv.1, f kv.2)).foldl (fun m kv => assign kv.1 kv.2 m)
        (acc.map fun kv => (kv.1, f kv.2)) =
      (kvs.foldl (fun m kv => assign kv.1 kv.2 m) acc).map fun kv => (kv.1, f kv.2) := by
  induction kvs generalizing acc with
  | nil => rfl
  | cons e kvs ih =>
    simp only [List.map_cons, List.foldl_cons]
    rw [assign_map f e.1 e.2 acc]
    exact ih _

/-- The entries of a map with every value changed are the changed entries. -/
theorem mapEntries_map {α β : Type} (f : α → β) (kvs : List (String × α)) :
    mapEntries (kvs.map fun kv => (kv.1, f kv.2)) =
      (mapEntries kvs).map fun kv => (kv.1, f kv.2) := by
  have := foldl_assign_map f kvs []
  simpa [mapEntries] using this

/-- Values `json.Marshal` can write are all written, each under its key. -/
theorem marshalVariables_values (kvs : List (String × GoValue)) :
    marshalVariables (kvs.map fun kv => (kv.1, Variable.value kv.2)) =
      .ok (kvs.map fun kv => (kv.1, encodeValue kv.2)) := by
  induction kvs with
  | nil => rfl
  | cons e kvs ih =>
    obtain ⟨k, v⟩ := e
    simp [marshalVariables, ih]

theorem charsLess_irrefl (a : List Char) : charsLess a a = false := by
  induction a with
  | nil => rfl
  | cons x xs ih => simp [charsLess, ih]

theorem charsLess_trans : ∀ (a b c : List Char),
    charsLess a b = true → charsLess b c = true → charsLess a c = true
  | [], [], _, h, _ => by simp [charsLess] at h
  | [], _ :: _, [], _, h => by simp [charsLess] at h
  | [], _ :: _, _ :: _, _, _ => by simp [charsLess]
  | _ :: _, [], _, h, _ => by simp [charsLess] at h
  | _ :: _, _ :: _, [], _, h => by simp [charsLess] at h
  | x :: xs, y :: ys, z :: zs, h1, h2 => by
    simp only [charsLess] at h1 h2 ⊢
    by_cases hxy : x.toNat < y.toNat
    · by_cases hyz : y.toNat < z.toNat
      · have : x.toNat < z.toNat := by omega
        simp [this]
      · by_cases hzy : z.toNat < y.toNat
        · simp [hyz, hzy] at h2
        · have : x.toNat < z.toNat := by omega
          simp [this]
    · by_cases hyx : y.toNat < x.toNat
      · simp [hxy, hyx] at h1
      · simp only [hxy, hyx, if_false] at h1
        by_cases hyz : y.toNat < z.toNat
        · have : x.toNat < z.toNat := by omega
          simp [this]
        · by_cases hzy : z.toNat < y.toNat
          · simp [hyz, hzy] at h2
          · simp only [hyz, hzy, if_false] at h2
            have h3 : ¬ x.toNat < z.toNat := by omega
            have h4 : ¬ z.toNat < x.toNat := by omega
            simp only [h3, h4, if_false]
            exact charsLess_trans xs ys zs h1 h2

theorem keyLess_ne (a b : String) (h : keyLess a b = true) : a ≠ b := by
  intro e
  subst e
  simp [keyLess, charsLess_irrefl] at h

theorem keyLess_asymm (a b : String) (h : keyLess a b = true) : keyLess b a = false := by
  cases hba : keyLess b a with
  | false => rfl
  | true =>
    have := charsLess_trans _ _ _ h hba
    simp [charsLess_irrefl] at this

/-- Assigning a key above every key of the map adds the entry at the end. -/
theorem assign_above {α : Type} (k : String) (v : α) (m : List (String × α))
    (h : ∀ e ∈ m, keyLess e.1 k = true) : assign k v m = m ++ [(k, v)] := by
  induction m with
  | nil => rfl
  | cons e m ih =>
    obtain ⟨k', v'⟩ := e
    have hk : keyLess k' k = true := h (k', v') (by simp)
    have hne : k ≠ k' := fun e => keyLess_ne _ _ hk e.symm
    have hnl : keyLess k k' = false := keyLess_asymm _ _ hk
    simp [assign, hne, hnl]
    exact ih (fun e he => h e (by simp [he]))

theorem ascending_head {α : Type} (k : String) (v : α) (rest : List (String × α))
    (h : ascendingKeys ((k, v) :: rest) = true) :
    (∀ e ∈ rest, keyLess k e.1 = true) ∧ ascendingKeys rest = true := by
  induction rest generalizing k v with
  | nil => simp [ascendingKeys]
  | cons e rest ih =>
    obtain ⟨k', v'⟩ := e
    simp only [ascendingKeys, Bool.and_eq_true] at h
    obtain ⟨hk, hrest⟩ := h
    obtain ⟨hall, _⟩ := ih k' v' hrest
    refine ⟨?_, hrest⟩
    intro e he
    rcases List.mem_cons.mp he with rfl | he
    · exact hk
    · exact charsLess_trans _ _ _ hk (hall e he)

theorem foldl_assign_ascending {α : Type} (acc members : List (String × α))
    (hacc : ∀ a ∈ acc, ∀ e ∈ members, keyLess a.1 e.1 = true)
    (h : ascendingKeys members = true) :
    members.foldl (fun m kv => assign kv.1 kv.2 m) acc = acc ++ members := by
  induction members generalizing acc with
  | nil => simp
  | cons e rest ih =>
    obtain ⟨k, v⟩ := e
    obtain ⟨hall, hrest⟩ := ascending_head k v rest h
    simp only [List.foldl_cons]
    rw [assign_above k v acc (fun a ha => hacc a ha (k, v) (by simp))]
    rw [ih (acc ++ [(k, v)]) ?_ hrest]
    · simp
    · intro a ha e he
      rcases List.mem_append.mp ha with ha | ha
      · exact hacc a ha e (by simp [he])
      · simp at ha
        subst ha
        exact hall e he

theorem mapEntries_ascending {α : Type} (members : List (String × α))
    (h : ascendingKeys members = true) : mapEntries members = members := by
  have := foldl_assign_ascending [] members (by simp) h
  simpa [mapEntries] using this

mutual
theorem decode_stable (w : World) : ∀ (j : JSON), stable w j = true →
    ∃ v, decodeValue w j = .ok v ∧ encodeValue v = j
  | .null, _ => ⟨.nil, rfl, rfl⟩
  | .bool b, _ => ⟨.bool b, rfl, rfl⟩
  | .num lit, h => by
    have hl : w.float64 lit = some lit := by simpa [stable] using h
    exact ⟨.float64 lit, by simp [decodeValue, hl], rfl⟩
  | .str s, _ => ⟨.string s, rfl, rfl⟩
  | .arr items, h => by
    obtain ⟨vs, hd, he⟩ := decode_stable_items w items (by simpa [stable] using h)
    exact ⟨.slice vs, by simp [decodeValue, hd], by simp [encodeValue, he]⟩
  | .obj members, h => by
    have h' : ascendingKeys members = true ∧ stableMembers w members = true := by
      simpa [stable] using h
    obtain ⟨kvs, hd, he⟩ := decode_stable_members w members h'.2
    exact ⟨.map kvs, by simp [decodeValue, hd],
      by simp [encodeValue, he, mapEntries_ascending members h'.1]⟩
theorem decode_stable_items (w : World) : ∀ (items : List JSON), stableItems w items = true →
    ∃ vs, decodeItems w items = .ok vs ∧ encodeItems vs = items
  | [], _ => ⟨[], rfl, rfl⟩
  | j :: rest, h => by
    have h' : stable w j = true ∧ stableItems w rest = true := by simpa [stableItems] using h
    obtain ⟨v, hd, he⟩ := decode_stable w j h'.1
    obtain ⟨vs, hds, hes⟩ := decode_stable_items w rest h'.2
    exact ⟨v :: vs, by simp [decodeItems, hd, hds], by simp [encodeItems, he, hes]⟩
theorem decode_stable_members (w : World) : ∀ (members : List (String × JSON)),
    stableMembers w members = true →
    ∃ kvs, decodeMembers w members = .ok kvs ∧ encodeAssigned kvs = members
  | [], _ => ⟨[], rfl, rfl⟩
  | (k, j) :: rest, h => by
    have h' : stable w j = true ∧ stableMembers w rest = true := by
      simpa [stableMembers] using h
    obtain ⟨v, hd, he⟩ := decode_stable w j h'.1
    obtain ⟨kvs, hds, hes⟩ := decode_stable_members w rest h'.2
    exact ⟨(k, v) :: kvs, by simp [decodeMembers, hd, hds], by simp [encodeAssigned, he, hes]⟩
end

/-- Members none of which stores into `Data`, with empty or null under `errors`. -/
theorem decodeFields_no_data (w : World) (cur : GraphQLResponse) (backing : List ErrorItem)
    (members : List (String × JSON))
    (hd : ∀ m ∈ members, selects "data" m.1 = false)
    (he : ∀ m ∈ members, selects "errors" m.1 = true → m.2 = .arr [] ∨ m.2 = .null)
    (hc : cur.Errors = []) :
    decodeFields w cur backing members = .ok { Data := cur.Data, Errors := [] } := by
  induction members generalizing cur backing with
  | nil =>
    obtain ⟨d, e⟩ := cur
    simp at hc
    simp [decodeFields, hc]
  | cons m rest ih =>
    obtain ⟨k, j⟩ := m
    have hk : selects "data" k = false := hd (k, j) (by simp)
    have hrest := fun cur backing => ih cur backing (fun m hm => hd m (by simp [hm]))
      (fun m hm => he m (by simp [hm]))
    simp only [decodeFields, hk]
    by_cases hs : selects "errors" k = true
    · rcases he (k, j) (by simp) hs with hj | hj
      · simp only at hj; subst hj
        simp [hs, decodeErrors, decodeErrorItems]
        exact hrest { cur with Errors := [] } [] rfl
      · simp only at hj; subst hj
        simp [hs, decodeErrors]
        exact hrest { cur with Errors := [] } [] rfl
    · simp [hs]
      exact hrest cur backing hc

/-- Members of which one stores into `Data`, with empty or null under `errors`. -/
theorem decodeFields_one_data (w : World) (cur : GraphQLResponse) (backing : List ErrorItem)
    (members : List (String × JSON)) (d : JSON) (v : GoValue)
    (hd : (members.filter fun m => selects "data" m.1).map Prod.snd = [d])
    (hv : decodeValue w d = .ok v)
    (he : ∀ m ∈ members, selects "errors" m.1 = true → m.2 = .arr [] ∨ m.2 = .null)
    (hc : cur.Errors = []) :
    decodeFields w cur backing members = .ok { Data := v, Errors := [] } := by
  induction members generalizing cur backing with
  | nil => simp at hd
  | cons m rest ih =>
    obtain ⟨k, j⟩ := m
    by_cases hk : selects "data" k = true
    · simp [List.filter, hk] at hd
      obtain ⟨hj, hnone⟩ := hd
      subst hj
      simp only [decodeFields, hk, if_true, hv]
      have := decodeFields_no_data w { cur with Data := v } backing rest
        (fun m hm => by
          have := hnone m.1 m.2 hm
          simpa using this)
        (fun m hm => he m (by simp [hm])) hc
      simpa using this
    · have hk' : selects "data" k = false := by simpa using hk
      simp [List.filter, hk'] at hd
      have hrest := fun cur backing =>
        ih cur backing (by simpa using hd) (fun m hm => he m (by simp [hm]))
      simp only [decodeFields, hk']
      by_cases hs : selects "errors" k = true
      · rcases he (k, j) (by simp) hs with hj | hj
        · simp only at hj; subst hj
          simp [hs, decodeErrors, decodeErrorItems]
          exact hrest { cur with Errors := [] } [] rfl
        · simp only at hj; subst hj
          simp [hs, decodeErrors]
          exact hrest { cur with Errors := [] } [] rfl
      · simp [hs]
        exact hrest cur backing hc

mutual
theorem decodeValue_congr (w₁ w₂ : World) (h : w₁.float64 = w₂.float64) :
    ∀ j : JSON, decodeValue w₁ j = decodeValue w₂ j
  | .null => rfl
  | .bool _ => rfl
  | .num lit => by simp [decodeValue, h]
  | .str _ => rfl
  | .arr items => by simp [decodeValue, decodeItems_congr w₁ w₂ h items]
  | .obj members => by simp [decodeValue, decodeMembers_congr w₁ w₂ h members]
theorem decodeItems_congr (w₁ w₂ : World) (h : w₁.float64 = w₂.float64) :
    ∀ items : List JSON, decodeItems w₁ items = decodeItems w₂ items
  | [] => rfl
  | j :: rest => by
    simp [decodeItems, decodeValue_congr w₁ w₂ h j, decodeItems_congr w₁ w₂ h rest]
theorem decodeMembers_congr (w₁ w₂ : World) (h : w₁.float64 = w₂.float64) :
    ∀ members : List (String × JSON), decodeMembers w₁ members = decodeMembers w₂ members
  | [] => rfl
  | (k, j) :: rest => by
    simp [decodeMembers, decodeValue_congr w₁ w₂ h j, decodeMembers_congr w₁ w₂ h rest]
end

theorem decodeFields_congr (w₁ w₂ : World) (h : w₁.float64 = w₂.float64)
    (cur : GraphQLResponse) (backing : List ErrorItem) (members : List (String × JSON)) :
    decodeFields w₁ cur backing members = decodeFields w₂ cur backing members := by
  induction members generalizing cur backing with
  | nil => rfl
  | cons m rest ih =>
    obtain ⟨k, j⟩ := m
    simp only [decodeFields, decodeValue_congr w₁ w₂ h j]
    split
    · split
      · exact ih _ _
      · rfl
    · split
      · split
        · exact ih _ _
        · rfl
      · exact ih _ _

/-- The decoder reads the world only through the number conversion. -/
theorem unmarshalBody_congr (w₁ w₂ : World) (h : w₁.float64 = w₂.float64) (body : Body) :
    unmarshalBody w₁ body = unmarshalBody w₂ body := by
  cases body with
  | invalid c => rfl
  | json doc =>
    cases doc <;> simp [unmarshalBody, unmarshalResponse, decodeFields_congr w₁ w₂ h]

/-- Worlds that differ only in the status codes of the replies give the same
run of `Query`. -/
theorem query_congr (w₁ w₂ : World) (c : GitHubClient)
    (hf : w₁.float64 = w₂.float64) (hp : w₁.parseURL = w₂.parseURL)
    (hr : ∀ r, (w₁.roundTrip r).map (fun reply => reply.read) =
               (w₂.roundTrip r).map (fun reply => reply.read))
    (q : String) (vars : Option (List (String × Variable))) :
    c.Query w₁ q vars = c.Query w₂ q vars := by
  rw [query_unfold, query_unfold, hp]
  cases marshalRequest { Query := q, Variables := vars } with
  | error e => rfl
  | ok body =>
    cases w₂.parseURL c.baseURL with
    | some cause => rfl
    | none =>
      simp only
      have h := hr (upstreamRequest c body)
      cases h1 : w₁.roundTrip (upstreamRequest c body) with
      | error c1 =>
        cases h2 : w₂.roundTrip (upstreamRequest c body) with
        | error c2 => simp [h1, h2, Except.map] at h; simp [h]
        | ok r2 => simp [h1, h2, Except.map] at h
      | ok r1 =>
        cases h2 : w₂.roundTrip (upstreamRequest c body) with
        | error c2 => simp [h1, h2, Except.map] at h
        | ok r2 =>
          simp [h1, h2, Except.map] at h
          simp only [h]
          cases r2.read with
          | error e => rfl
          | ok bytes => simp [unmarshalBody_congr w₁ w₂ hf]

/-- The call of a handler when upstream answers with an object that has no
member for `data` or `errors`: the response decodes to the zero value. -/
theorem query_no_fields (w : World) (c : GitHubClient) (q : String) (u : String)
    (status : Nat) (members : List (String × JSON))
    (hu : w.parseURL c.baseURL = none)
    (hrt : ∀ r, w.roundTrip r = .ok { status := status, read := .ok (.json (.obj members)) })
    (hn : ∀ m ∈ members, selects "data" m.1 = false ∧ selects "errors" m.1 = false) :
    (c.Query w q (usernameOnly u)).result = .ok { Data := .nil, Errors := [] } := by
  rw [query_unfold, marshal_username]
  simp only [hu, hrt, unmarshalBody, unmarshalResponse]
  exact decodeFields_no_data w _ [] members (fun m hm => (hn m hm).1)
    (fun m hm hsel => by simp [(hn m hm).2] at hsel) rfl

/-- The engine reads the world only through `Query`. -/
theorem serve_congr (w₁ w₂ : World) (c : GitHubClient) (req : Request)
    (hq : ∀ q vars, c.Query w₁ q vars = c.Query w₂ q vars) :
    ServeHTTP w₁ c req = ServeHTTP w₂ c req := by
  have hh : ∀ route, routeHandler w₁ c route = routeHandler w₂ c route := by
    intro route
    funext rw
    cases route with
    | pinned u => simp [routeHandler, pinned_unfold, hq]
    | stats u => simp [routeHandler, stats_unfold, hq]
    | health => rfl
  simp only [ServeHTTP, hh]

theorem pinned_header (w : World) (c : GitHubClient) (u : String) :
    (pinnedHandler w c u afterCors).writer.header =
      corsHeader ++ [("Content-Type", "application/json; charset=utf-8")] := by
  rw [pinned_unfold]
  simp only [json_after_cors]
  split
  · rfl
  · split <;> rfl

theorem stats_header (w : World) (c : GitHubClient) (u : String) :
    (statsHandler w c u afterCors).writer.header =
      corsHeader ++ [("Content-Type", "application/json; charset=utf-8")] := by
  rw [stats_unfold]
  simp only [json_after_cors]
  split
  · rfl
  · split <;> rfl

/-- Every response that went through the middleware starts with its headers. -/
theorem served_header (w : World) (c : GitHubClient) (req : Request)
    (h : ¬ (req.method = "GET" ∧ getValue req.path = .tsr)) :
    (ServeHTTP w c req).writer.header = corsHeader ∨
    (ServeHTTP w c req).writer.header =
      corsHeader ++ [("Content-Type", "application/json; charset=utf-8")] ∨
    (ServeHTTP w c req).writer.header = corsHeader ++ [("Content-Type", "text/plain")] := by
  have hno : (serveError 404 (corsMiddleware req fun rw => { trace := [], writer := rw })).writer.header
      = corsHeader ∨
      (serveError 404 (corsMiddleware req fun rw => { trace := [], writer := rw })).writer.header
      = corsHeader ++ [("Content-Type", "text/plain")] := by
    by_cases ho : req.method = "OPTIONS"
    · left
      simp [serveError, freshWriter, cors_on_empty, ho]
    · right
      simp [serveError, freshWriter, cors_on_empty, ho, corsHeader, Header.Set]
  by_cases hm : req.method = "GET"
  · cases hv : getValue req.path with
    | handlers route =>
      rw [serve_route w c req route hm hv]
      right; left
      cases route with
      | pinned u => simpa [routeHandler] using pinned_header w c u
      | stats u => simpa [routeHandler] using stats_header w c u
      | health => simp [routeHandler, healthHandler, json_after_cors]
    | tsr => exact absurd ⟨hm, hv⟩ h
    | miss =>
      simp only [ServeHTTP, hm, hv, if_true]
      rcases hno with hno | hno
      · exact Or.inl hno
      · exact Or.inr (Or.inr hno)
  · simp only [ServeHTTP, hm, if_false]
    rcases hno with hno | hno
    · exact Or.inl hno
    · exact Or.inr (Or.inr hno)

/-! ## Lemmas: the error list -/

/-- A key selects a field exactly when it folds to the field's name. -/
theorem selects_iff_fold (name key : String) :
    selects name key = true ↔ foldName key = foldName name := by
  unfold selects
  constructor
  · intro h
    simp only [Bool.or_eq_true, decide_eq_true_eq] at h
    rcases h with h | h
    · rw [h]
    · exact h
  · intro h
    simp [h]

/-- No key selects both `data` and `errors`. -/
theorem selects_errors_not_data (k : String) (h : selects "errors" k = true) :
    selects "data" k = false := by
  cases hd : selects "data" k with
  | false => rfl
  | true =>
    have h1 := (selects_iff_fold "errors" k).mp h
    have h2 := (selects_iff_fold "data" k).mp hd
    rw [h1] at h2
    exact absurd h2 (by decide)

/-- The decoder of one error element stores what `lastMessage` reads. -/
theorem decodeErrorFields_message (cur item : ErrorItem) (members : List (String × JSON))
    (h : decodeErrorFields cur members = .ok item) :
    item.Message = lastMessage cur.Message members := by
  induction members generalizing cur with
  | nil =>
    simp only [decodeErrorFields, Except.ok.injEq] at h
    rw [← h]
    rfl
  | cons m rest ih =>
    obtain ⟨k, j⟩ := m
    by_cases hk : selects "message" k = true
    · cases j with
      | str s =>
        simp only [decodeErrorFields, hk, if_true] at h
        simpa [lastMessage, hk] using ih _ h
      | null =>
        simp only [decodeErrorFields, hk, if_true] at h
        simpa [lastMessage, hk] using ih _ h
      | bool b => simp [decodeErrorFields, hk] at h
      | num n => simp [decodeErrorFields, hk] at h
      | arr xs => simp [decodeErrorFields, hk] at h
      | obj ms => simp [decodeErrorFields, hk] at h
    · have hk' : selects "message" k = false := by simpa using hk
      simp only [decodeErrorFields, hk'] at h
      simpa [lastMessage, hk'] using ih _ h

/-- A fresh element decoded from an upstream error holds its message text. -/
theorem decodeErrorItem_message (e : JSON) (item : ErrorItem)
    (h : decodeErrorItem { Message := "" } e = .ok item) :
    item = { Message := messageText e } := by
  cases e with
  | null =>
    simp only [decodeErrorItem, Except.ok.injEq] at h
    rw [← h]
    rfl
  | obj ms =>
    simp only [decodeErrorItem] at h
    have := decodeErrorFields_message _ _ _ h
    cases item
    simp only [messageText]
    simp at this
    rw [this]
  | bool b => simp [decodeErrorItem] at h
  | num n => simp [decodeErrorItem] at h
  | str s => simp [decodeErrorItem] at h
  | arr xs => simp [decodeErrorItem] at h

/-- An array decoded into a slice without a backing array: one element per
upstream error, in order, each with that error's message text. -/
theorem decodeErrorItems_fresh (items : List JSON) (decoded : List ErrorItem)
    (h : decodeErrorItems [] items = .ok decoded) :
    decoded = items.map fun e => { Message := messageText e } := by
  induction items generalizing decoded with
  | nil =>
    simp only [decodeErrorItems, Except.ok.injEq] at h
    rw [← h]
    rfl
  | cons e rest ih =>
    simp only [decodeErrorItems, List.headD_nil, List.tail_nil] at h
    cases h1 : decodeErrorItem { Message := "" } e with
    | error err => simp [h1] at h
    | ok item =>
      cases h2 : decodeErrorItems [] rest with
      | error err => simp [h1, h2] at h
      | ok more =>
        simp only [h1, h2, Except.ok.injEq] at h
        rw [← h, decodeErrorItem_message e item h1, ih more h2]
        rfl

/-- Members none of which selects `errors` leave the slice as it is. -/
theorem decodeFields_keeps_errors (w : World) (cur resp : GraphQLResponse)
    (backing : List ErrorItem) (members : List (String × JSON))
    (hn : ∀ m ∈ members, selects "errors" m.1 = false)
    (h : decodeFields w cur backing members = .ok resp) :
    resp.Errors = cur.Errors := by
  induction members generalizing cur with
  | nil =>
    simp only [decodeFields, Except.ok.injEq] at h
    rw [← h]
  | cons m rest ih =>
    obtain ⟨k, j⟩ := m
    have hk : selects "errors" k = false := hn (k, j) (by simp)
    have hrest := fun cur h => ih cur (fun m hm => hn m (by simp [hm])) h
    simp only [decodeFields, hk] at h
    by_cases hd : selects "data" k = true
    · simp only [hd, if_true] at h
      cases hv : decodeValue w j with
      | error e => simp [hv] at h
      | ok v =>
        simp only [hv] at h
        exact hrest { cur with Data := v } h
    · have hd' : selects "data" k = false := by simpa using hd
      simp only [hd'] at h
      exact hrest cur h

/-- A body with one member for `errors`, an array: the decoded slice holds one
element per element of that array, in order, each with its message text. -/
theorem decodeFields_errors_once (w : World) (cur resp : GraphQLResponse)
    (members : List (String × JSON)) (items : List JSON)
    (he : (members.filter fun m => selects "errors" m.1).map Prod.snd = [.arr items])
    (h : decodeFields w cur [] members = .ok resp) :
    resp.Errors = items.map fun e => { Message := messageText e } := by
  induction members generalizing cur with
  | nil => simp at he
  | cons m rest ih =>
    obtain ⟨k, j⟩ := m
    by_cases hk : selects "errors" k = true
    · have hd : selects "data" k = false := selects_errors_not_data k hk
      simp [List.filter, hk] at he
      obtain ⟨hj, hnone⟩ := he
      subst hj
      simp only [decodeFields, hd, hk, if_true, decodeErrors] at h
      cases hi : decodeErrorItems [] items with
      | error e => simp [hi] at h
      | ok decoded =>
        have hdec := decodeErrorItems_fresh items decoded hi
        have hnone' : ∀ m ∈ rest, selects "errors" m.1 = false := fun m hm => by
          have := hnone m.1 m.2 hm
          simpa using this
        cases decoded with
        | nil =>
          simp only [hi] at h
          have := decodeFields_keeps_errors w _ resp _ rest hnone' h
          rw [this, ← hdec]
        | cons item more =>
          simp only [hi] at h
          have := decodeFields_keeps_errors w _ resp _ rest hnone' h
          rw [this, ← hdec]
    · have hk' : selects "errors" k = false := by simpa using hk
      simp [List.filter, hk'] at he
      simp only [decodeFields, hk'] at h
      by_cases hd : selects "data" k = true
      · simp only [hd, if_true] at h
        cases hv : decodeValue w j with
        | error e => simp [hv] at h
        | ok v =>
          simp only [hv] at h
          exact ih { cur with Data := v } (by simpa using he) h
      · have hd' : selects "data" k = false := by simpa using hd
        simp only [hd'] at h
        exact ih cur (by simpa using he) h

/-! ## Lemmas: the rewritten document -/

mutual
/-- The document written for a decoded value is the rewritten document; the
decoder fails exactly where a number is out of range. -/
theorem rewritten_eq (w : World) : ∀ j : JSON,
    rewritten w j =
      match decodeValue w j with
      | .ok v => some (encodeValue v)
      | .error _ => none
  | .null => rfl
  | .bool _ => rfl
  | .num lit => by
    simp only [rewritten, decodeValue]
    cases w.float64 lit <;> rfl
  | .str _ => rfl
  | .arr items => by
    simp only [rewritten, decodeValue, rewrittenItems_eq w items]
    cases decodeItems w items <;> rfl
  | .obj members => by
    simp only [rewritten, decodeValue, rewrittenMembers_eq w members]
    cases decodeMembers w members <;> rfl
theorem rewrittenItems_eq (w : World) : ∀ items : List JSON,
    rewrittenItems w items =
      match decodeItems w items with
      | .ok vs => some (encodeItems vs)
      | .error _ => none
  | [] => rfl
  | j :: rest => by
    simp only [rewrittenItems, decodeItems, rewritten_eq w j, rewrittenItems_eq w rest]
    cases decodeValue w j with
    | error e => rfl
    | ok v => cases decodeItems w rest <;> rfl
theorem rewrittenMembers_eq (w : World) : ∀ members : List (String × JSON),
    rewrittenMembers w members =
      match decodeMembers w members with
      | .ok kvs => some (encodeAssigned kvs)
      | .error _ => none
  | [] => rfl
  | (k, j) :: rest => by
    simp only [rewrittenMembers, decodeMembers, rewritten_eq w j, rewrittenMembers_eq w rest]
    cases decodeValue w j with
    | error e => rfl
    | ok v => cases decodeMembers w rest <;> rfl
end

/-- Members of which one stores into `Data` and fails: the call fails with it. -/
theorem decodeFields_data_error (w : World) (cur : GraphQLResponse) (backing : List ErrorItem)
    (members : List (String × JSON)) (d : JSON) (e : GoError)
    (hd : (members.filter fun m => selects "data" m.1).map Prod.snd = [d])
    (hv : decodeValue w d = .error e)
    (he : ∀ m ∈ members, selects "errors" m.1 = true → m.2 = .arr [] ∨ m.2 = .null) :
    decodeFields w cur backing members = .error e := by
  induction members generalizing cur backing with
  | nil => simp at hd
  | cons m rest ih =>
    obtain ⟨k, j⟩ := m
    by_cases hk : selects "data" k = true
    · simp [List.filter, hk] at hd
      obtain ⟨hj, _⟩ := hd
      subst hj
      simp only [decodeFields, hk, if_true, hv]
    · have hk' : selects "data" k = false := by simpa using hk
      simp [List.filter, hk'] at hd
      have hrest := fun cur backing =>
        ih cur backing (by simpa using hd) (fun m hm => he m (by simp [hm]))
      simp only [decodeFields, hk']
      by_cases hs : selects "errors" k = true
      · rcases he (k, j) (by simp) hs with hj | hj
        · simp only at hj; subst hj
          simp [hs, decodeErrors, decodeErrorItems]
          exact hrest _ _
        · simp only at hj; subst hj
          simp [hs, decodeErrors]
          exact hrest _ _
      · simp [hs]
        exact hrest cur backing

/-- Assigning a key the map does not hold adds one entry and loses none. -/
theorem assign_perm {α : Type} (k : String) (v : α) (m : List (String × α))
    (h : k ∉ m.map Prod.fst) : (assign k v m).Perm ((k, v) :: m) := by
  induction m with
  | nil => exact List.Perm.refl _
  | cons e m ih =>
    obtain ⟨k', v'⟩ := e
    have hne : k ≠ k' := fun e => h (by simp [e])
    have hm : k ∉ m.map Prod.fst := fun e => h (by simp at e ⊢; exact Or.inr e)
    simp only [assign, hne, if_false]
    split
    · exact List.Perm.refl _
    · exact ((ih hm).cons (k', v')).trans (List.Perm.swap _ _ _)

theorem foldl_assign_perm {α : Type} (members acc : List (String × α))
    (hm : (members.map Prod.fst).Nodup)
    (hacc : ∀ k ∈ acc.map Prod.fst, k ∉ members.map Prod.fst) :
    (members.foldl (fun m kv => assign kv.1 kv.2 m) acc).Perm (acc ++ members) := by
  induction members generalizing acc with
  | nil => simp
  | cons e rest ih =>
    obtain ⟨k, v⟩ := e
    simp only [List.map_cons, List.nodup_cons] at hm
    have hk : k ∉ acc.map Prod.fst := fun hmem => hacc k hmem (by simp)
    have hp := assign_perm k v acc hk
    simp only [List.foldl_cons]
    refine (ih (assign k v acc) hm.2 ?_).trans ?_
    · intro k' hk'
      have : k' ∈ ((k, v) :: acc).map Prod.fst := (hp.map Prod.fst).subset hk'
      simp only [List.map_cons, List.mem_cons] at this
      rcases this with rfl | h'
      · exact hm.1
      · exact fun hin => hacc k' h' (by simp [hin])
    · exact (hp.append_right rest).trans (by simpa using List.perm_middle.symm)

/-- A map built from members with distinct keys holds every one of them. -/
theorem mapEntries_perm {α : Type} (members : List (String × α))
    (h : (members.map Prod.fst).Nodup) : (mapEntries members).Perm members := by
  have := foldl_assign_perm members [] h (by simp)
  simpa [mapEntries] using this

/-- The call of a handler when upstream answers with an object that has one
`data` and nothing under `errors`: it succeeds with the decoded `data`, or fails
where the decoder of `data` fails. -/
theorem query_one_data (w : World) (c : GitHubClient) (q : String) (u : String)
    (status : Nat) (members : List (String × JSON)) (d : JSON)
    (hu : w.parseURL c.baseURL = none)
    (hrt : ∀ r, w.roundTrip r = .ok { status := status, read := .ok (.json (.obj members)) })
    (hd : (members.filter fun m => selects "data" m.1).map Prod.snd = [d])
    (he : ∀ m ∈ members, selects "errors" m.1 = true → m.2 = .arr [] ∨ m.2 = .null) :
    (c.Query w q (usernameOnly u)).result =
      match decodeValue w d with
      | .ok v => .ok { Data := v, Errors := [] }
      | .error e => .error e := by
  rw [query_unfold, marshal_username]
  simp only [hu, hrt, unmarshalBody, unmarshalResponse]
  cases hv : decodeValue w d with
  | ok v => exact decodeFields_one_data w _ [] members d v hd hv he rfl
  | error e => exact decodeFields_data_error w _ [] members d e hd hv he


/-! ## Lemmas: the paths the engine redirects -/

theorem dropStatic_some (s l rest : List Char) (h : dropStatic s l = some rest) :
    l = s ++ rest := by
  induction s generalizing l with
  | nil =>
    cases l <;> simp [dropStatic] at h <;> simp [h]
  | cons a s ih =>
    cases l with
    | nil => simp [dropStatic] at h
    | cons c cs =>
      simp only [dropStatic] at h
      by_cases hac : a = c
      · simp only [hac, if_true] at h
        simp [hac, ih cs h]
      · simp [hac] at h

theorem dropWhile_head_slash (l t : List Char) (c : Char)
    (h : l.dropWhile (fun ch => ch != '/') = c :: t) : c = '/' := by
  induction l with
  | nil => simp at h
  | cons a l ih =>
    by_cases ha : a = '/'
    · subst ha
      simp [List.dropWhile] at h
      exact h.1.symm
    · have hb : (a != '/') = true := by simp [ha]
      simp only [List.dropWhile, hb] at h
      exact ih h

theorem takeWhile_no_slash_mem (l : List Char) : '/' ∉ l.takeWhile (fun ch => ch != '/') := by
  intro h
  have := List.mem_takeWhile_imp h
  simp at this

theorem dropWhile_segment_slash (seg : List Char) (h : '/' ∉ seg) :
    (seg ++ ['/']).dropWhile (fun ch => ch != '/') = ['/'] := by
  induction seg with
  | nil => simp [List.dropWhile]
  | cons a seg ih =>
    have ha : a ≠ '/' := fun e => h (by simp [e])
    have hl : '/' ∉ seg := fun e => h (by simp [e])
    have hb : (a != '/') = true := by simp [ha]
    simp only [List.cons_append, List.dropWhile, hb]
    exact ih hl

/-- The parameter node advises a redirect exactly for a segment, which may be
empty, followed by one slash that ends the path. -/
theorem lookupParam_tsr_iff (route : String → Route) (rest : List Char) :
    lookupParam route rest = .tsr ↔ ∃ seg : List Char, '/' ∉ seg ∧ rest = seg ++ ['/'] := by
  constructor
  · intro h
    unfold lookupParam at h
    cases rest with
    | nil => simp at h
    | cons a l =>
      simp only at h
      cases hd : (a :: l).dropWhile (fun ch => ch != '/') with
      | nil => simp [hd] at h
      | cons c t =>
        cases t with
        | nil =>
          have hc := dropWhile_head_slash _ _ _ hd
          subst hc
          refine ⟨(a :: l).takeWhile (fun ch => ch != '/'), takeWhile_no_slash_mem _, ?_⟩
          have := List.takeWhile_append_dropWhile (fun ch => ch != '/') (a :: l)
          rw [hd] at this
          exact this.symm
        | cons c' t' => simp [hd] at h
  · rintro ⟨seg, hseg, rfl⟩
    unfold lookupParam
    have hd := dropWhile_segment_slash seg hseg
    cases hs : seg ++ ['/'] with
    | nil => simp at hs
    | cons a l =>
      rw [hs] at hd
      simp only [hd]

theorem append_slash_data (p seg : String) :
    (p ++ seg ++ "/").toList = p.toList ++ (seg.toList ++ ['/']) := by
  simp [String.toList]

/-- The paths the route tree advises to redirect: the empty path, `//`, and a
parameter route with a slash after its segment. -/
theorem getValue_tsr_iff (path : String) :
    getValue path = .tsr ↔
      path = "" ∨ path = "//" ∨
      ∃ seg : String, '/' ∉ seg.toList ∧
        (path = "/api/pinned/" ++ seg ++ "/" ∨ path = "/api/stats/" ++ seg ++ "/") := by
  constructor
  · intro h
    unfold getValue at h
    by_cases h1 : path = "/"
    · simp [h1] at h
    · by_cases h2 : path = ""
      · exact Or.inl h2
      · by_cases h3 : path = "//"
        · exact Or.inr (Or.inl h3)
        · simp only [h1, h2, h3, if_false] at h
          right; right
          cases hp : dropStatic "/api/pinned/".toList path.toList with
          | some rest =>
            simp only [hp] at h
            obtain ⟨seg, hseg, hrest⟩ := (lookupParam_tsr_iff _ rest).mp h
            refine ⟨String.mk seg, hseg, Or.inl ?_⟩
            have hl := dropStatic_some _ _ _ hp
            apply String.ext
            have : ("/api/pinned/" ++ String.mk seg ++ "/").data =
                "/api/pinned/".toList ++ (seg ++ ['/']) := by
              simp [String.toList]
            rw [this, ← hrest]
            exact hl
          | none =>
            simp only [hp] at h
            cases hq : dropStatic "/api/stats/".toList path.toList with
            | some rest =>
              simp only [hq] at h
              obtain ⟨seg, hseg, hrest⟩ := (lookupParam_tsr_iff _ rest).mp h
              refine ⟨String.mk seg, hseg, Or.inr ?_⟩
              have hl := dropStatic_some _ _ _ hq
              apply String.ext
              have : ("/api/stats/" ++ String.mk seg ++ "/").data =
                  "/api/stats/".toList ++ (seg ++ ['/']) := by
                simp [String.toList]
              rw [this, ← hrest]
              exact hl
            | none =>
              rw [hq] at h
              exact absurd h (by simp)
  · intro h
    rcases h with h | h | ⟨seg, hseg, h | h⟩
    · subst h; rfl
    · subst h; rfl
    · subst h
      have h1 : "/api/pinned/" ++ seg ++ "/" ≠ "/" := by
        rw [String.append_assoc]; exact static_ne _ _ _ (by decide)
      have h2 : "/api/pinned/" ++ seg ++ "/" ≠ "" := by
        rw [String.append_assoc]; exact static_ne _ _ _ (by decide)
      have h3 : "/api/pinned/" ++ seg ++ "/" ≠ "//" := by
        rw [String.append_assoc]; exact static_ne _ _ _ (by decide)
      simp only [getValue, h1, h2, h3, if_false, append_slash_data, dropStatic_append]
      exact (lookupParam_tsr_iff _ _).mpr ⟨seg.toList, hseg, rfl⟩
    · subst h
      have h1 : "/api/stats/" ++ seg ++ "/" ≠ "/" := by
        rw [String.append_assoc]; exact static_ne _ _ _ (by decide)
      have h2 : "/api/stats/" ++ seg ++ "/" ≠ "" := by
        rw [String.append_assoc]; exact static_ne _ _ _ (by decide)
      have h3 : "/api/stats/" ++ seg ++ "/" ≠ "//" := by
        rw [String.append_assoc]; exact static_ne _ _ _ (by decide)
      have h4 : dropStatic "/api/pinned/".toList
          ("/api/stats/".toList ++ (seg.toList ++ ['/'])) = none := by
        simp [dropStatic, String.toList]
      simp only [getValue, h1, h2, h3, if_false, append_slash_data, h4, dropStatic_append]
      exact (lookupParam_tsr_iff _ _).mpr ⟨seg.toList, hseg, rfl⟩

/-- The answer of the engine to a `GET` the tree advises to redirect. -/
theorem serve_redirect (w : World) (c : GitHubClient) (req : Request)
    (hm : req.method = "GET") (hv : getValue req.path = .tsr) :
    ServeHTTP w c req = redirectTrailingSlash req := by
  have hp : req.path ≠ "/" := by
    intro e
    rw [e] at hv
    simp [getValue] at hv
  simp [ServeHTTP, hm, hv, hp]

/-! ## The claims -/

/-- C1: on either relay route, when the upstream reply decodes into a response
whose error list is not empty, the relay answers 400 with a JSON object whose
only field is `errors`: one object per decoded error, in order, each holding
that error's message; the decoded `Data` plays no part in the body. And when
the upstream body is an object with one member for `errors`, an array, the
decoded errors are the elements of that array: the list of the 400 has the
length of the upstream array and its i-th element holds the message text of the
i-th upstream error, whatever the body holds under `data`. -/
theorem graphql_errors_answered_400 (w : World) (ghClient : GitHubClient) (req : Request)
    (username : String) (resp : GraphQLResponse)
    (hm : req.method = "GET")
    (hq : (getValue req.path = .handlers (.pinned username) ∧
            (ghClient.Query w pinnedQuery (usernameOnly username)).result = .ok resp) ∨
          (getValue req.path = .handlers (.stats username) ∧
            (ghClient.Query w statsQuery (usernameOnly username)).result = .ok resp))
    (he : resp.Errors ≠ []) :
    (ServeHTTP w ghClient req).writer.status = 400 ∧
    (ServeHTTP w ghClient req).writer.body =
      .json (.obj [("errors",
        .arr (resp.Errors.map fun e => .obj [("message", .str e.Message)]))]) ∧
    ∀ (code : Nat) (members : List (String × JSON)) (items : List JSON),
      w.parseURL ghClient.baseURL = none →
      (∀ r, w.roundTrip r = .ok { status := code, read := .ok (.json (.obj members)) }) →
      (members.filter fun m => selects "errors" m.1).map Prod.snd = [.arr items] →
      resp.Errors = items.map (fun e => { Message := messageText e }) ∧
      (ServeHTTP w ghClient req).writer.body =
        .json (.obj [("errors",
          .arr (items.map fun e => .obj [("message", .str (messageText e))]))]) := by
  have hlen : resp.Errors.length > 0 := List.length_pos.mpr he
  have hbody : (ServeHTTP w ghClient req).writer.status = 400 ∧
      (ServeHTTP w ghClient req).writer.body =
        .json (.obj [("errors",
          .arr (resp.Errors.map fun e => .obj [("message", .str e.Message)]))]) := by
    rcases hq with ⟨hr, hres⟩ | ⟨hr, hres⟩
    · rw [serve_route w ghClient req _ hm hr]
      simp [routeHandler, pinned_unfold, hres, hlen, json_after_cors]
    · rw [serve_route w ghClient req _ hm hr]
      simp [routeHandler, stats_unfold, hres, hlen, json_after_cors]
  refine ⟨hbody.1, hbody.2, ?_⟩
  intro code members items hu hrt hitems
  have hdec : ∀ q, (ghClient.Query w q (usernameOnly username)).result = .ok resp →
      resp.Errors = items.map (fun e => { Message := messageText e }) := by
    intro q hres
    rw [query_unfold, marshal_username] at hres
    simp only [hu, hrt, unmarshalBody, unmarshalResponse] at hres
    exact decodeFields_errors_once w _ resp members items hitems hres
  have hE : resp.Errors = items.map (fun e => { Message := messageText e }) := by
    rcases hq with ⟨_, hres⟩ | ⟨_, hres⟩
    · exact hdec _ hres
    · exact hdec _ hres
  refine ⟨hE, ?_⟩
  rw [hbody.2, hE]
  simp

/-- C1 at a reply of upstream that carries `data` together with three errors:
400, with the three messages in the order of the upstream array. -/
theorem graphql_errors_answered_400_witness :
    (ServeHTTP (answering 200 (.json failedQueryBody)) (NewGitHubClient "ghp_token")
        { method := "GET", path := "/api/pinned/nobody" }).writer.status = 400 ∧
    (ServeHTTP (answering 200 (.json failedQueryBody)) (NewGitHubClient "ghp_token")
        { method := "GET", path := "/api/pinned/nobody" }).writer.body =
      .json (.obj [("errors", .arr
        [.obj [("message", .str "Could not resolve to a User with the login of nobody.")],
         .obj [("message", .str "Something went wrong while executing your query.")],
         .obj [("message", .str "API rate limit exceeded for this token.")]])]) :=
  have h := graphql_errors_answered_400 (answering 200 (.json failedQueryBody))
    (NewGitHubClient "ghp_token") { method := "GET", path := "/api/pinned/nobody" } "nobody"
    { Data := .map [("user", .nil)],
      Errors :=
        [{ Message := "Could not resolve to a User with the login of nobody." },
         { Message := "Something went wrong while executing your query." },
         { Message := "API rate limit exceeded for this token." }] }
    rfl (Or.inl ⟨rfl, rfl⟩) (by simp)
  ⟨h.1, (h.2.2 200 _ _ rfl (fun _ => rfl) rfl).2⟩

/-- C2 as the code has it: on either relay route, when upstream answers with a
JSON object that has exactly one member for `data`, holding `d`, and nothing but
an empty array or `null` under `errors`, the relay answers 200 with `d`
rewritten: in every object of `d` the members stand in ascending byte order of
their keys, with only the last member of a key that repeats, and every number is
the text Go's `float64` writes for it; nothing else changes, and an object
whose keys are distinct keeps every member. The body is `d` itself when `d` is
stable (keys strictly ascending in every object, every number written back as
the same literal). When a number of `d` is out of the range of `float64` the
relay answers 500. -/
theorem data_relayed_rewritten (w : World) (ghClient : GitHubClient) (req : Request)
    (username : String) (status : Nat) (members : List (String × JSON)) (d : JSON)
    (hm : req.method = "GET")
    (hr : getValue req.path = .handlers (.pinned username) ∨
          getValue req.path = .handlers (.stats username))
    (hu : w.parseURL ghClient.baseURL = none)
    (hrt : ∀ r, w.roundTrip r = .ok { status := status, read := .ok (.json (.obj members)) })
    (hd : (members.filter fun m => selects "data" m.1).map Prod.snd = [d])
    (he : ∀ m ∈ members, selects "errors" m.1 = true → m.2 = .arr [] ∨ m.2 = .null) :
    (∀ d', rewritten w d = some d' →
      (ServeHTTP w ghClient req).writer.status = 200 ∧
      (ServeHTTP w ghClient req).writer.body = .json d') ∧
    (stable w d = true →
      (ServeHTTP w ghClient req).writer.status = 200 ∧
      (ServeHTTP w ghClient req).writer.body = .json d) ∧
    (rewritten w d = none → (ServeHTTP w ghClient req).writer.status = 500) ∧
    (∀ ms : List (String × JSON), (ms.map Prod.fst).Nodup → (mapEntries ms).Perm ms) := by
  have hq := fun q => query_one_data w ghClient q username status members d hu hrt hd he
  have hrw := rewritten_eq w d
  have hok : ∀ v, decodeValue w d = .ok v →
      (ServeHTTP w ghClient req).writer.status = 200 ∧
      (ServeHTTP w ghClient req).writer.body = .json (encodeValue v) := by
    intro v hv
    simp only [hv] at hq
    rcases hr with hr | hr
    · rw [serve_route w ghClient req _ hm hr]
      simp [routeHandler, pinned_unfold, hq, json_after_cors]
    · rw [serve_route w ghClient req _ hm hr]
      simp [routeHandler, stats_unfold, hq, json_after_cors]
  refine ⟨?_, ?_, ?_, fun ms h => mapEntries_perm ms h⟩
  · intro d' hd'
    cases hv : decodeValue w d with
    | error e => simp [hrw, hv] at hd'
    | ok v =>
      simp only [hrw, hv, Option.some.injEq] at hd'
      rw [← hd']
      exact hok v hv
  · intro hs
    obtain ⟨v, hv, hev⟩ := decode_stable w d hs
    rw [← hev]
    exact hok v hv
  · intro hnone
    cases hv : decodeValue w d with
    | ok v => simp [hrw, hv] at hnone
    | error e =>
      simp only [hv] at hq
      rcases hr with hr | hr
      · rw [serve_route w ghClient req _ hm hr]
        simp [routeHandler, pinned_unfold, hq, json_after_cors]
      · rw [serve_route w ghClient req _ hm hr]
        simp [routeHandler, stats_unfold, hq, json_after_cors]

/-- C2 as the code has it, at a reply to the pinned query whose members stand in
the order of the query text: 200, with every member, in key order. -/
theorem data_relayed_rewritten_witness :
    (ServeHTTP (answering 200 (.json (.obj [("data", pinnedReplyData)])))
        (NewGitHubClient "ghp_token")
        { method := "GET", path := "/api/pinned/octocat" }).writer.status = 200 ∧
    (ServeHTTP (answering 200 (.json (.obj [("data", pinnedReplyData)])))
        (NewGitHubClient "ghp_token")
        { method := "GET", path := "/api/pinned/octocat" }).writer.body =
      .json (.obj
        [("user",
          .obj
            [("pinnedItems",
              .obj
                [("edges",
                  .arr
                    [.obj
                      [("node",
                        .obj
                          [("description", .null),
                           ("forkCount", .num "1300"),
                           ("id", .str "MDEwOlJlcG9zaXRvcnkxMjk2MjY5"),
                           ("name", .str "Hello-World"),
                           ("primaryLanguage", .null),
                           ("stargazers", .obj [("totalCount", .num "2500")]),
                           ("url", .str "https://github.com/octocat/Hello-World")])]]),
                 ("totalCount", .num "1")])])]) :=
  (data_relayed_rewritten (answering 200 (.json (.obj [("data", pinnedReplyData)])))
    (NewGitHubClient "ghp_token") { method := "GET", path := "/api/pinned/octocat" }
    "octocat" 200 [("data", pinnedReplyData)] pinnedReplyData
    rfl (Or.inl rfl) rfl (fun _ => rfl) rfl
    (by
      intro m hmem hsel
      simp at hmem
      subst hmem
      exact absurd hsel (by decide))).1 _ rfl

/-- C2 fails as stated: an upstream `data` whose object lists `name` before
`login` is answered 200 with `login` before `name`; one whose object repeats a
key is answered with only the last of the two members; one that holds the
number 2^53 + 1 is answered with 2^53; one that holds a number out of the range
of `float64` is answered 500; and an upstream body that is the JSON array `[]`,
with no `errors` at all, is answered 500. -/
theorem data_not_relayed_verbatim :
    ((ServeHTTP (answering 200 (.json (.obj [("data", profileData)])))
        (NewGitHubClient "ghp_token")
        { method := "GET", path := "/api/pinned/octocat" }).writer.status = 200 ∧
     (ServeHTTP (answering 200 (.json (.obj [("data", profileData)])))
        (NewGitHubClient "ghp_token")
        { method := "GET", path := "/api/pinned/octocat" }).writer.body =
       .json (.obj [("user",
         .obj [("login", .str "octocat"), ("name", .str "The Octocat")])]) ∧
     JSON.obj [("user", .obj [("login", .str "octocat"), ("name", .str "The Octocat")])] ≠
       profileData) ∧
    ((ServeHTTP (answering 200 (.json (.obj [("data", repeatedKeyData)])))
        (NewGitHubClient "ghp_token")
        { method := "GET", path := "/api/stats/octocat" }).writer.body =
       .json (.obj [("id", .num "2")]) ∧
     JSON.obj [("id", .num "2")] ≠ repeatedKeyData) ∧
    ((ServeHTTP
        (answering 200 (.json (.obj [("data", .obj [("databaseId", .num "9007199254740993")])])))
        (NewGitHubClient "ghp_token")
        { method := "GET", path := "/api/stats/octocat" }).writer.body =
       .json (.obj [("databaseId", .num "9007199254740992")]) ∧
     JSON.obj [("databaseId", .num "9007199254740992")] ≠
       .obj [("databaseId", .num "9007199254740993")]) ∧
    (ServeHTTP (answering 200 (.json (.obj [("data", .obj [("size", .num "1e999")])])))
        (NewGitHubClient "ghp_token")
        { method := "GET", path := "/api/stats/octocat" }).writer.status = 500 ∧
    (ServeHTTP (answering 200 (.json (.arr []))) (NewGitHubClient "ghp_token")
        { method := "GET", path := "/api/pinned/octocat" }).writer.status = 500 := by
  refine ⟨⟨rfl, rfl, ?_⟩, ⟨rfl, ?_⟩, ⟨rfl, ?_⟩, rfl, rfl⟩
  · simp [profileData]
  · simp [repeatedKeyData]
  · simp

/-- C3: on either relay route, when `Query` returns an error, the relay answers
500 with a JSON object whose only field is `error`, holding the text of that
error, and the text is not empty. -/
theorem query_error_answered_500 (w : World) (ghClient : GitHubClient) (req : Request)
    (username : String) (err : GoError)
    (hm : req.method = "GET")
    (hq : (getValue req.path = .handlers (.pinned username) ∧
            (ghClient.Query w pinnedQuery (usernameOnly username)).result = .error err) ∨
          (getValue req.path = .handlers (.stats username) ∧
            (ghClient.Query w statsQuery (usernameOnly username)).result = .error err)) :
    (ServeHTTP w ghClient req).writer.status = 500 ∧
    (ServeHTTP w ghClient req).writer.body = .json (.obj [("error", .str err.Error)]) ∧
    err.Error ≠ "" := by
  rcases hq with ⟨hr, hres⟩ | ⟨hr, hres⟩
  · rw [serve_route w ghClient req _ hm hr]
    simp [routeHandler, pinned_unfold, hres, json_after_cors, error_text_nonempty]
  · rw [serve_route w ghClient req _ hm hr]
    simp [routeHandler, stats_unfold, hres, json_after_cors, error_text_nonempty]

/-- C3 at a refused connection: 500, with the text of the transport error. -/
theorem query_error_answered_500_witness :
    (ServeHTTP refusing (NewGitHubClient "ghp_token")
        { method := "GET", path := "/api/stats/octocat" }).writer.status = 500 ∧
    (ServeHTTP refusing (NewGitHubClient "ghp_token")
        { method := "GET", path := "/api/stats/octocat" }).writer.body =
      .json (.obj [("error", .str
        "Post \"https://api.github.com/graphql\": dial tcp 140.82.112.6:443: connect: connection refused")]) :=
  have h := query_error_answered_500 refusing (NewGitHubClient "ghp_token")
    { method := "GET", path := "/api/stats/octocat" } "octocat"
    (.url "Post" "https://api.github.com/graphql"
      ⟨"dial tcp 140.82.112.6:443: connect: connection refused", by decide⟩)
    rfl (Or.inr ⟨rfl, rfl⟩)
  ⟨h.1, h.2.1⟩

/-- C4: for every username (any text a path segment can hold), serving
`GET /api/pinned/{username}` runs the pinned handler, which calls `Query`
exactly once, with the pinned query text and a variables mapping that has the
one key `username` bound to the path parameter unchanged; `GET
/api/stats/{username}` does the same with the stats query text. The one call
sends at most one request, and exactly one when the base URL parses, whose body
carries the username unchanged. -/
theorem one_upstream_call_with_username (w : World) (ghClient : GitHubClient)
    (username : String) (redirectURL : String → String)
    (hne : username ≠ "") (hs : '/' ∉ username.toList) :
    (ServeHTTP w ghClient
        { method := "GET", path := "/api/pinned/" ++ username,
          redirectURL := redirectURL }).trace =
      [.handler "/api/pinned/:username",
       .query pinnedQuery (some [("username", .value (.string username))])
         (ghClient.Query w pinnedQuery (some [("username", .value (.string username))]))] ∧
    (ServeHTTP w ghClient
        { method := "GET", path := "/api/stats/" ++ username,
          redirectURL := redirectURL }).trace =
      [.handler "/api/stats/:username",
       .query statsQuery (some [("username", .value (.string username))])
         (ghClient.Query w statsQuery (some [("username", .value (.string username))]))] ∧
    (∀ q, (ghClient.Query w q (some [("username", .value (.string username))])).sent.length ≤ 1) ∧
    (∀ q, w.parseURL ghClient.baseURL = none →
      (ghClient.Query w q (some [("username", .value (.string username))])).sent =
        [upstreamRequest ghClient
          (.obj [("query", .str q), ("variables", .obj [("username", .str username)])])]) := by
  refine ⟨?_, ?_, ?_, ?_⟩
  · rw [serve_route w ghClient _ _ rfl (getValue_pinned username hne hs)]
    simp [routeHandler, pinned_unfold, usernameOnly]
  · rw [serve_route w ghClient _ _ rfl (getValue_stats username hne hs)]
    simp [routeHandler, stats_unfold, usernameOnly]
  · intro q
    exact query_sent_le_one w ghClient q _
  · intro q hp
    have hm := marshal_username q username
    simp only [usernameOnly] at hm
    rw [query_unfold, hm]
    simp [hp]

/-- C4 at a username with a blank, a percent sign and angle brackets: the one
call carries it unchanged. -/
theorem one_upstream_call_with_username_witness :
    (ServeHTTP refusing (NewGitHubClient "t")
        { method := "GET", path := "/api/pinned/" ++ "Octo Cat%2F<b>" }).trace =
      [.handler "/api/pinned/:username",
       .query pinnedQuery (some [("username", .value (.string "Octo Cat%2F<b>"))])
         ((NewGitHubClient "t").Query refusing pinnedQuery
           (some [("username", .value (.string "Octo Cat%2F<b>"))]))] :=
  (one_upstream_call_with_username refusing (NewGitHubClient "t") "Octo Cat%2F<b>"
    (fun target => target) (by decide) (by decide)).1

/-- C5: every `OPTIONS` request, whatever its path and its URL, is answered 204 with an empty
body and the four CORS headers; no handler starts and `Query` is not called. -/
theorem options_preflight (w : World) (ghClient : GitHubClient) (path : String)
    (redirectURL : String → String) :
    ServeHTTP w ghClient { method := "OPTIONS", path := path, redirectURL := redirectURL } =
      { trace := []
        writer :=
          { status := 204
            header :=
              [("Access-Control-Allow-Origin", "*"),
               ("Access-Control-Allow-Credentials", "true"),
               ("Access-Control-Allow-Headers", allowHeaders),
               ("Access-Control-Allow-Methods", "POST, OPTIONS, GET, PUT")]
            body := .empty
            written := true } } := by
  simp [ServeHTTP, serveError, freshWriter, cors_on_empty, corsHeader]

/-- C6 fails as stated: `GET /api/pinned/octocat/`, the path of a registered
route with a slash added, is answered by the engine itself with a 301 redirect
that carries a `Location` and a `Content-Type` and none of the four CORS
headers; so is `GET //`. -/
theorem redirect_lacks_cors :
    ((ServeHTTP refusing (NewGitHubClient "ghp_token")
        { method := "GET", path := "/api/pinned/octocat/" }).writer.status = 301 ∧
     (ServeHTTP refusing (NewGitHubClient "ghp_token")
        { method := "GET", path := "/api/pinned/octocat/" }).writer.header =
       [("Location", "/api/pinned/octocat"), ("Content-Type", "text/html; charset=utf-8")] ∧
     (ServeHTTP refusing (NewGitHubClient "ghp_token")
        { method := "GET", path := "/api/pinned/octocat/" }).writer.header.lookup
       "Access-Control-Allow-Origin" = none) ∧
    ((ServeHTTP refusing (NewGitHubClient "ghp_token")
        { method := "GET", path := "//" }).writer.status = 301 ∧
     (ServeHTTP refusing (NewGitHubClient "ghp_token")
        { method := "GET", path := "//" }).writer.header =
       [("Location", "/"), ("Content-Type", "text/html; charset=utf-8")] ∧
     (ServeHTTP refusing (NewGitHubClient "ghp_token")
        { method := "GET", path := "//" }).writer.header.lookup
       "Access-Control-Allow-Origin" = none) := by
  refine ⟨⟨rfl, rfl, rfl⟩, ⟨rfl, rfl, rfl⟩⟩

/-- C6 as the code has it: the engine answers a `GET` whose path the route tree
advises to redirect (the path of a parameter route with a slash after its
segment, `//`, or the empty path) by itself, with a 301 that carries none of
the four CORS headers and runs no handler. Every other response, whatever the
method, the path and the outcome (200, 400, 500, the 204 of a preflight, the
404 of an unknown route, the probe), carries `Access-Control-Allow-Origin: *`,
`Access-Control-Allow-Credentials: true`, the fixed
`Access-Control-Allow-Headers` list and `Access-Control-Allow-Methods: POST,
OPTIONS, GET, PUT`. -/
theorem cors_unless_engine_redirect (w : World) (ghClient : GitHubClient) (req : Request) :
    (req.method = "GET" ∧ getValue req.path = .tsr →
      (ServeHTTP w ghClient req).writer.status = 301 ∧
      (ServeHTTP w ghClient req).trace = [] ∧
      (ServeHTTP w ghClient req).writer.header.lookup "Access-Control-Allow-Origin" = none ∧
      (ServeHTTP w ghClient req).writer.header.lookup "Access-Control-Allow-Credentials" = none ∧
      (ServeHTTP w ghClient req).writer.header.lookup "Access-Control-Allow-Headers" = none ∧
      (ServeHTTP w ghClient req).writer.header.lookup "Access-Control-Allow-Methods" = none) ∧
    (¬ (req.method = "GET" ∧ getValue req.path = .tsr) →
      (ServeHTTP w ghClient req).writer.header.lookup "Access-Control-Allow-Origin" =
        some "*" ∧
      (ServeHTTP w ghClient req).writer.header.lookup "Access-Control-Allow-Credentials" =
        some "true" ∧
      (ServeHTTP w ghClient req).writer.header.lookup "Access-Control-Allow-Headers" =
        some allowHeaders ∧
      (ServeHTTP w ghClient req).writer.header.lookup "Access-Control-Allow-Methods" =
        some "POST, OPTIONS, GET, PUT") ∧
    (getValue req.path = .tsr ↔
      req.path = "" ∨ req.path = "//" ∨
      ∃ seg : String, '/' ∉ seg.toList ∧
        (req.path = "/api/pinned/" ++ seg ++ "/" ∨ req.path = "/api/stats/" ++ seg ++ "/")) := by
  refine ⟨?_, ?_, getValue_tsr_iff req.path⟩
  · rintro ⟨hm, hv⟩
    rw [serve_redirect w ghClient req hm hv]
    refine ⟨?_, ?_, ?_, ?_, ?_, ?_⟩ <;> simp [redirectTrailingSlash, hm, List.lookup]
  · intro h
    rcases served_header w ghClient req h with hh | hh | hh <;>
      rw [hh] <;> refine ⟨rfl, rfl, rfl, rfl⟩

/-- C6 as the code has it, at a `POST` to a path no route takes, which is
answered 404 with the headers, and at `GET //`, which is answered 301 without. -/
theorem cors_unless_engine_redirect_witness :
    ((ServeHTTP refusing (NewGitHubClient "ghp_token")
        { method := "POST", path := "/api/unknown" }).writer.status = 404 ∧
     (ServeHTTP refusing (NewGitHubClient "ghp_token")
        { method := "POST", path := "/api/unknown" }).writer.header.lookup
       "Access-Control-Allow-Origin" = some "*") ∧
    ((ServeHTTP refusing (NewGitHubClient "ghp_token")
        { method := "GET", path := "//" }).writer.status = 301 ∧
     (ServeHTTP refusing (NewGitHubClient "ghp_token")
        { method := "GET", path := "//" }).writer.header.lookup
       "Access-Control-Allow-Origin" = none) :=
  ⟨⟨rfl, ((cors_unless_engine_redirect refusing (NewGitHubClient "ghp_token")
      { method := "POST", path := "/api/unknown" }).2.1
      (fun h => absurd h.1 (by decide))).1⟩,
   ⟨((cors_unless_engine_redirect refusing (NewGitHubClient "ghp_token")
      { method := "GET", path := "//" }).1 ⟨rfl, rfl⟩).1,
    ((cors_unless_engine_redirect refusing (NewGitHubClient "ghp_token")
      { method := "GET", path := "//" }).1 ⟨rfl, rfl⟩).2.2.1⟩⟩

/-- C7: when `GITHUB_TOKEN` is unset or empty after the attempt to load `.env`,
whether or not that attempt failed, `main` prints the error and exits with
status 1, and does nothing else: no router, no route, no port. When the variable
holds a token, `main` goes on to create the router, register the routes and
bind the port, also after a failed load, which only prints a line. -/
theorem startup_requires_token (loadFailed : Bool) (env : String → Option String) :
    ((env "GITHUB_TOKEN" = none ∨ env "GITHUB_TOKEN" = some "") →
      main loadFailed env =
        (if loadFailed then [Effect.stdout "Error loading .env file\n"] else []) ++
          [.stdout "GITHUB_TOKEN environment variable is required\n", .exit 1]) ∧
    (∀ token, env "GITHUB_TOKEN" = some token → token ≠ "" →
      main loadFailed env =
        (if loadFailed then [Effect.stdout "Error loading .env file\n"] else []) ++
          [.newRouter, .use,
           .handle "GET" "/api/pinned/:username",
           .handle "GET" "/api/stats/:username",
           .handle "GET" "/",
           .stdout ("Server starting on port " ++
             (if Getenv env "PORT" = "" then "8080" else Getenv env "PORT") ++ "...\n"),
           .run (":" ++ (if Getenv env "PORT" = "" then "8080" else Getenv env "PORT"))]) := by
  constructor
  · intro h
    have ht : Getenv env "GITHUB_TOKEN" = "" := by
      rcases h with h | h <;> simp [Getenv, h]
    simp [main, ht]
  · intro token h hne
    have ht : Getenv env "GITHUB_TOKEN" = token := by simp [Getenv, h]
    simp [main, ht, hne]

/-- C8: every `GET /` is answered 200 with the body `{"status":"ok"}`, whatever
the world and the client (so whatever the credential); only the probe handler
starts and `Query` is not called. -/
theorem probe_ok (w : World) (ghClient : GitHubClient) (redirectURL : String → String) :
    ServeHTTP w ghClient { method := "GET", path := "/", redirectURL := redirectURL } =
      { trace := [Event.handler "/"]
        writer :=
          { status := 200
            header := corsHeader ++ [("Content-Type", "application/json; charset=utf-8")]
            body := .json (.obj [("status", .str "ok")])
            written := true } } := by
  simp [ServeHTTP, getValue, freshWriter, cors_on_empty, routeHandler, healthHandler,
    ResponseWriter.JSON, corsHeader, Header.Set, ginH]

/-- C9: whatever the query text, the variables and the token, every request
`Query` hands to `client.Do` is a POST to the base URL of the client, with the
header `Authorization` set to `Bearer ` followed by the token and
`Content-Type` set to `application/json`, and with a body that is the JSON
object of the two fields `query` (the given text) and `variables` (the given
mapping as `json.Marshal` writes it: `null` for the nil map, else its entries in
key order). When every value of the mapping can be written and the base URL
parses, that request is sent, once. A client built by `NewGitHubClient` has the
base URL `https://api.github.com/graphql` and the given token. -/
theorem query_request_shape (w : World) (c : GitHubClient) (q : String)
    (vars : Option (List (String × Variable))) :
    (∀ req ∈ (c.Query w q vars).sent,
      req.method = "POST" ∧ req.url = c.baseURL ∧
      req.header =
        [("Authorization", "Bearer " ++ c.token), ("Content-Type", "application/json")] ∧
      ∃ v, req.body = .obj [("query", .str q), ("variables", v)] ∧
        ((vars = none ∧ v = .null) ∨
          ∃ kvs es, vars = some kvs ∧ marshalVariables (mapEntries kvs) = .ok es ∧
            v = .obj es)) ∧
    (∀ kvs : List (String × GoValue), w.parseURL c.baseURL = none →
      (c.Query w q (some (kvs.map fun kv => (kv.1, Variable.value kv.2)))).sent =
        [{ method := "POST"
           url := c.baseURL
           header :=
             [("Authorization", "Bearer " ++ c.token), ("Content-Type", "application/json")]
           body :=
             .obj [("query", .str q),
                   ("variables",
                    .obj ((mapEntries kvs).map fun kv => (kv.1, encodeValue kv.2)))] }]) ∧
    (w.parseURL c.baseURL = none → (c.Query w q none).sent =
        [{ method := "POST"
           url := c.baseURL
           header :=
             [("Authorization", "Bearer " ++ c.token), ("Content-Type", "application/json")]
           body := .obj [("query", .str q), ("variables", .null)] }]) ∧
    (∀ token, (NewGitHubClient token).baseURL = "https://api.github.com/graphql" ∧
      (NewGitHubClient token).token = token) := by
  refine ⟨?_, ?_, ?_, fun token => ⟨rfl, rfl⟩⟩
  · intro req hreq
    rw [query_unfold] at hreq
    cases hm : marshalRequest { Query := q, Variables := vars } with
    | error e => simp [hm] at hreq
    | ok body =>
      cases hp : w.parseURL c.baseURL with
      | some cause => simp [hm, hp] at hreq
      | none =>
        simp [hm, hp] at hreq
        subst hreq
        exact ⟨rfl, rfl, rfl, marshal_shape q vars body hm⟩
  · intro kvs hp
    have hm : marshalRequest
        { Query := q, Variables := some (kvs.map fun kv => (kv.1, Variable.value kv.2)) } =
        .ok (.obj [("query", .str q),
          ("variables", .obj ((mapEntries kvs).map fun kv => (kv.1, encodeValue kv.2)))]) := by
      simp only [marshalRequest]
      rw [mapEntries_map Variable.value kvs, marshalVariables_values]
    rw [query_unfold, hm]
    simp [hp, upstreamRequest]
  · intro hp
    rw [query_unfold]
    simp [marshalRequest, hp, upstreamRequest]

/-- C10: the status code of the upstream reply plays no part. Two worlds that
differ only in the status codes of the replies (same number conversion, same
URL parsing, same transport failures and same bodies) give the same run of
`Query` for every call and the same served response for every request. In
particular, on either relay route, an upstream reply of any status whose body is
a JSON object with no member for `data` or `errors` decodes to `Data = nil` with
no errors, and the relay answers 200 with the body `null`. -/
theorem upstream_status_ignored (w₁ w₂ : World) (ghClient : GitHubClient)
    (hf : w₁.float64 = w₂.float64) (hp : w₁.parseURL = w₂.parseURL)
    (hr : ∀ r, (w₁.roundTrip r).map (fun reply => reply.read) =
               (w₂.roundTrip r).map (fun reply => reply.read)) :
    (∀ q vars, ghClient.Query w₁ q vars = ghClient.Query w₂ q vars) ∧
    (∀ req, ServeHTTP w₁ ghClient req = ServeHTTP w₂ ghClient req) ∧
    (∀ (status : Nat) (members : List (String × JSON)) (req : Request) (username : String),
      w₁.parseURL ghClient.baseURL = none →
      (∀ r, w₁.roundTrip r = .ok { status := status, read := .ok (.json (.obj members)) }) →
      (∀ m ∈ members, selects "data" m.1 = false ∧ selects "errors" m.1 = false) →
      req.method = "GET" →
      (getValue req.path = .handlers (.pinned username) ∨
        getValue req.path = .handlers (.stats username)) →
      (∀ q, (ghClient.Query w₁ q (usernameOnly username)).result =
        .ok { Data := .nil, Errors := [] }) ∧
      (ServeHTTP w₁ ghClient req).writer.status = 200 ∧
      (ServeHTTP w₁ ghClient req).writer.body = .json .null) := by
  have hq := query_congr w₁ w₂ ghClient hf hp hr
  refine ⟨hq, fun req => serve_congr w₁ w₂ ghClient req hq, ?_⟩
  intro status members req username hu hrt hn hm hroute
  have hres := fun q => query_no_fields w₁ ghClient q username status members hu hrt hn
  refine ⟨hres, ?_⟩
  rcases hroute with hroute | hroute
  · rw [serve_route w₁ ghClient req _ hm hroute]
    simp [routeHandler, pinned_unfold, hres, json_after_cors, encodeValue]
  · rw [serve_route w₁ ghClient req _ hm hroute]
    simp [routeHandler, stats_unfold, hres, json_after_cors, encodeValue]

/-- C10 at the reply upstream gives for a bad token: with status 401 the relay
answers as it does with status 200, which is 200 with the body `null`. -/
theorem upstream_status_ignored_witness :
    ServeHTTP (answering 401 (.json badCredentialsBody)) (NewGitHubClient "expired")
        { method := "GET", path := "/api/pinned/octocat" } =
      ServeHTTP (answering 200 (.json badCredentialsBody)) (NewGitHubClient "expired")
        { method := "GET", path := "/api/pinned/octocat" } ∧
    (ServeHTTP (answering 401 (.json badCredentialsBody)) (NewGitHubClient "expired")
        { method := "GET", path := "/api/pinned/octocat" }).writer.status = 200 ∧
    (ServeHTTP (answering 401 (.json badCredentialsBody)) (NewGitHubClient "expired")
        { method := "GET", path := "/api/pinned/octocat" }).writer.body = .json .null :=
  have h := upstream_status_ignored (answering 401 (.json badCredentialsBody))
    (answering 200 (.json badCredentialsBody)) (NewGitHubClient "expired") rfl rfl (fun _ => rfl)
  ⟨h.2.1 _,
   (h.2.2 401 _ { method := "GET", path := "/api/pinned/octocat" } "octocat" rfl (fun _ => rfl)
      (by decide) rfl (Or.inl rfl)).2⟩

end Relay
